import Mathlib

/-!
Verification of the EDINET fact-to-canonical-line-item resolution engine
(`financial_analyzer.py`) and its mapping-configuration model
(`financial_mapping.py`, `columuns_definition_config.py`).

The development is a shallow embedding: pandas data frames become lists of
records, Python floats become exact rationals (`Flt`), dates become
year/month/day triples with a day-number conversion, and the regular
expressions actually occurring in the mapping are translated into a small
executable regex AST (`RE`).  All definitions are executable so that
concrete scenarios evaluate by `decide`.
-/

set_option maxRecDepth 20000

/-! ## String helpers (char-list based, kernel-computable)

Python string operations (`.lower()`, `.strip()`, `in`, `.endswith`) are
modelled on `List Char`; Lean core string functions are avoided because
they do not reduce in the kernel. Only ASCII data occurs in the sources.
-/

/-- Lower-case a string, modelling Python `str.lower` on ASCII data. -/
def lowerStr (s : String) : String :=
  String.mk (s.data.map Char.toLower)

/-- Strip leading and trailing whitespace, modelling Python `str.strip`. -/
def trimStr (s : String) : String :=
  String.mk (((s.data.dropWhile Char.isWhitespace).reverse.dropWhile Char.isWhitespace).reverse)

/-- Test whether `needle` occurs as a contiguous sublist starting at the front. -/
def startsWithL (needle hay : List Char) : Bool :=
  decide (hay.take needle.length = needle)

/-- Test whether `needle` occurs as a contiguous substring of `hay`,
modelling the Python `in` operator on strings. -/
def containsSub (hay needle : String) : Bool :=
  (List.range (hay.data.length + 1)).any (fun i => startsWithL needle.data (hay.data.drop i))

/-- Test whether `s` ends with `suf`, modelling Python `str.endswith`. -/
def endsWithStr (s suf : String) : Bool :=
  decide (s.data.reverse.take suf.data.length = suf.data.reverse)

/-- Render the text `str(x)` of an optional string the way pandas
`astype(str)` does: missing values print as `"None"`. -/
def pyStr (s : Option String) : String :=
  match s with
  | some v => v
  | none => "None"

/-! ## Exact rationals modelling Python floats

Python floats in this pipeline hold financial figures and rule weights;
they are modelled as exact fractions with a positive denominator.  No
normalisation is performed by the arithmetic (values compare via cross
multiplication), which keeps every operation kernel-computable.
-/

/-- An exact fraction `num / den` with `0 < den`, the model of a (non-NaN)
Python float. -/
structure Flt where
  num : Int
  den : Nat
  den_pos : 0 < den

instance : DecidableEq Flt := fun a b =>
  if h : a.num = b.num ∧ a.den = b.den then
    .isTrue (by cases a; cases b; cases h.1; cases h.2; rfl)
  else
    .isFalse (by intro he; cases he; exact h ⟨rfl, rfl⟩)

/-- Embed an integer as a `Flt`. -/
def fl (n : Int) : Flt := ⟨n, 1, Nat.one_pos⟩

/-- Build a fraction literal with an explicit positive denominator. -/
def flD (n : Int) (d : Nat) (h : 0 < d) : Flt := ⟨n, d, h⟩

namespace Flt

/-- Addition of fractions (no normalisation). -/
def add (a b : Flt) : Flt :=
  ⟨a.num * b.den + b.num * a.den, a.den * b.den, Nat.mul_pos a.den_pos b.den_pos⟩

/-- Subtraction of fractions. -/
def sub (a b : Flt) : Flt :=
  ⟨a.num * b.den - b.num * a.den, a.den * b.den, Nat.mul_pos a.den_pos b.den_pos⟩

/-- Division of fractions; division by a zero value yields `0` and is
never reached by the embedded code (which guards divisions). -/
def div (a b : Flt) : Flt :=
  if h : b.num = 0 then ⟨0, 1, Nat.one_pos⟩
  else ⟨a.num * b.den * b.num.sign, a.den * b.num.natAbs,
    Nat.mul_pos a.den_pos (by cases b with
      | mk n d hd => exact Int.natAbs_pos.mpr h)⟩

/-- Absolute value. -/
def abs (a : Flt) : Flt := ⟨a.num.natAbs, a.den, a.den_pos⟩

/-- Numeric equality (cross multiplication), the model of Python `==`. -/
def eqv (a b : Flt) : Prop := a.num * b.den = b.num * a.den

/-- Numeric strict order (cross multiplication), the model of Python `<`. -/
def lt (a b : Flt) : Prop := a.num * b.den < b.num * a.den

/-- Numeric order (cross multiplication), the model of Python `<=`. -/
def le (a b : Flt) : Prop := a.num * b.den ≤ b.num * a.den

instance (a b : Flt) : Decidable (Flt.eqv a b) := by unfold Flt.eqv; infer_instance
instance (a b : Flt) : Decidable (Flt.lt a b) := by unfold Flt.lt; infer_instance
instance (a b : Flt) : Decidable (Flt.le a b) := by unfold Flt.le; infer_instance

/-- Test against zero, the model of Python `x == 0`. -/
def isZero (a : Flt) : Prop := a.num = 0

instance (a : Flt) : Decidable (a.isZero) := by unfold Flt.isZero; infer_instance

end Flt

/-! ## Decimal and date parsing

Models of the fragments of `pd.to_numeric(errors="coerce")` and
`pd.to_datetime(errors="coerce")` exercised by this pipeline: plain
(optionally signed) decimal numerals and zero-padded ISO `YYYY-MM-DD`
dates.  Anything else coerces to "missing", matching the `coerce`
behaviour on the data shapes the analyzer feeds in.
-/

/-- Value of a decimal digit, or `none`. -/
def digitVal (c : Char) : Option Nat :=
  if c.val ≥ 48 && c.val ≤ 57 then some (c.val.toNat - 48) else none

/-- Read a run of digits as a natural number; `none` when a non-digit
occurs. An empty run reads as `0`. -/
def digitsToNat (l : List Char) : Option Nat :=
  l.foldl (fun acc c => match acc, digitVal c with
    | some a, some v => some (a * 10 + v)
    | _, _ => none) (some 0)

/-- Parse a signed decimal numeral (`-?digits(.digits)?`) into an exact
fraction; the model of `pd.to_numeric(errors="coerce")` / `float(...)` on
the plain numerals this pipeline handles. -/
def parseDecimal (s : String) : Option Flt :=
  let core : List Char → Option Flt := fun l =>
    match l.splitOn '.' with
    | [intPart] =>
      if intPart.isEmpty then none
      else (digitsToNat intPart).map (fun v => fl v)
    | [intPart, fracPart] =>
      if intPart.isEmpty then none
      else
        match digitsToNat intPart, digitsToNat fracPart with
        | some ip, some fp =>
          some ⟨(ip * 10 ^ fracPart.length + fp : Nat), 10 ^ fracPart.length,
            Nat.pow_pos (by decide)⟩
        | _, _ => none
    | _ => none
  match s.data with
  | '-' :: rest => (core rest).map (fun q => ⟨-q.num, q.den, q.den_pos⟩)
  | l => core l

/-- A calendar date (year, month, day). -/
structure Date where
  y : Nat
  m : Nat
  d : Nat
deriving DecidableEq

/-- Day count of a month in a given year (proleptic Gregorian). -/
def daysInMonth (y m : Nat) : Nat :=
  if m = 2 then
    if y % 4 = 0 && (y % 100 ≠ 0 || y % 400 = 0) then 29 else 28
  else if m = 4 || m = 6 || m = 9 || m = 11 then 30
  else 31

/-- Parse a zero-padded ISO `YYYY-MM-DD` date string, the model of
`pd.to_datetime(errors="coerce")` on the date strings this pipeline
handles; anything else coerces to missing. -/
def parseDate (s : String) : Option Date :=
  match s.data with
  | [y1, y2, y3, y4, '-', m1, m2, '-', d1, d2] =>
    match digitVal y1, digitVal y2, digitVal y3, digitVal y4,
          digitVal m1, digitVal m2, digitVal d1, digitVal d2 with
    | some a, some b, some c, some d, some e, some f, some g, some h =>
      let yy := ((a * 10 + b) * 10 + c) * 10 + d
      let mm := e * 10 + f
      let dd := g * 10 + h
      if 1 ≤ mm && mm ≤ 12 && 1 ≤ dd && dd ≤ daysInMonth yy mm then
        some ⟨yy, mm, dd⟩
      else none
    | _, _, _, _, _, _, _, _ => none
  | _ => none

/-- Day number of a date (days since 0000-03-01, era-based civil-calendar
formula); used for exact day arithmetic on durations. -/
def Date.rataDie (dt : Date) : Nat :=
  let y := if dt.m ≤ 2 then dt.y - 1 else dt.y
  let era := y / 400
  let yoe := y % 400
  let mp := if dt.m > 2 then dt.m - 3 else dt.m + 9
  let doy := (153 * mp + 2) / 5 + dt.d - 1
  let doe := yoe * 365 + yoe / 4 - yoe / 100 + doy
  era * 146097 + doe

/-- Single decimal digit as a character. -/
def digitChar (n : Nat) : Char := Char.ofNat (48 + n % 10)

/-- Render a date back to zero-padded ISO `YYYY-MM-DD`, the model of
`period_end_dt.dt.date.astype(str)` re-stringification. -/
def Date.iso (dt : Date) : String :=
  String.mk [digitChar (dt.y / 1000), digitChar (dt.y / 100), digitChar (dt.y / 10), digitChar dt.y,
    '-', digitChar (dt.m / 10), digitChar dt.m, '-', digitChar (dt.d / 10), digitChar dt.d]

/-! ## Executable regular expressions

`_candidate_match` and the portfolio rules use `re.search(pat, value,
re.IGNORECASE)`.  The patterns that occur in the embedded rules use only
literals, alternation, option (`,?`), `.`/`.*`, and the `^`/`$` anchors.
They are translated into the AST below; matching is by Brzozowski
derivatives.  Anchors are encoded by searching over the input wrapped in
sentinel begin/end characters (which no literal or `.` can match), and
case-insensitivity by lowering the input (pattern literals are written
lower-case).
-/

/-- Begin-of-string sentinel character. -/
def bosChar : Char := Char.ofNat 1

/-- End-of-string sentinel character. -/
def eosChar : Char := Char.ofNat 2

/-- Regular-expression AST for the pattern fragment used by the sources. -/
inductive RE where
  | emp : RE
  | eps : RE
  | lit : Char → RE
  | seq : RE → RE → RE
  | alt : RE → RE → RE
  | star : RE → RE
  | dot : RE
deriving DecidableEq

/-- Nullability: does the expression match the empty string? -/
def RE.nullable : RE → Bool
  | .emp => false
  | .eps => true
  | .lit _ => false
  | .seq a b => a.nullable && b.nullable
  | .alt a b => a.nullable || b.nullable
  | .star _ => true
  | .dot => false

/-- Brzozowski derivative with respect to one character.  `dot` matches
any character except the two sentinels. -/
def RE.deriv : RE → Char → RE
  | .emp, _ => .emp
  | .eps, _ => .emp
  | .lit c, x => if x = c then .eps else .emp
  | .seq a b, x => if a.nullable then .alt (.seq (a.deriv x) b) (b.deriv x) else .seq (a.deriv x) b
  | .alt a b, x => .alt (a.deriv x) (b.deriv x)
  | .star a, x => .seq (a.deriv x) (.star a)
  | .dot, x => if x = bosChar || x = eosChar then .emp else .eps

/-- Does some (possibly empty) leading slice of `l` match `r`? -/
def RE.matchesPre (r : RE) (l : List Char) : Bool :=
  match l with
  | [] => r.nullable
  | c :: rest => r.nullable || (r.deriv c).matchesPre rest

/-- Unanchored, case-insensitive search over a string, the model of
`re.search(pat, value, re.IGNORECASE) is not None`.  The input is
lowered and wrapped in sentinels so that `^`/`$` (translated as sentinel
literals) behave as anchors. -/
def research (r : RE) (s : String) : Bool :=
  let cs := bosChar :: (s.data.map Char.toLower) ++ [eosChar]
  (List.range (cs.length + 1)).any (fun i => r.matchesPre (cs.drop i))

/-- Literal string pattern. -/
def rstr (s : String) : RE :=
  s.data.foldr (fun c acc => RE.seq (RE.lit c) acc) RE.eps

/-- Alternation of a non-empty list of patterns (`a|b|...`). -/
def raltL (l : List RE) : RE :=
  match l with
  | [] => RE.emp
  | [r] => r
  | r :: rest => RE.alt r (raltL rest)

/-- Optional pattern (`p?`). -/
def ropt (r : RE) : RE := RE.alt r RE.eps

/-- The `.*` pattern. -/
def rdotStar : RE := RE.star RE.dot

/-- The `^` anchor (start-of-input sentinel). -/
def rbos : RE := RE.lit bosChar

/-- The `$` anchor (end-of-input sentinel). -/
def reos : RE := RE.lit eosChar

/-- Concatenation of a list of patterns. -/
def rcatL (l : List RE) : RE :=
  match l with
  | [] => RE.eps
  | [r] => r
  | r :: rest => RE.seq r (rcatL rest)

/-! ## Mapping model (`financial_mapping.py`)

`MappingCandidate` models both the analyzer dataclass `MappingCandidate`
and the identical `CandidateSpec` of `financial_mapping.py`.  Regex
patterns are carried as their `RE` translations (they are opaque payloads
to the merge logic).  Dict-shaped inputs (`*.from_dict`) are modelled by
`*Dict` records whose fields are `Option`s (`none` = key absent/null).
-/

/-- A candidate matcher (`field`, optional case-insensitive `exact`,
optional `regex`, `weight`). -/
structure MappingCandidate where
  field : String
  exact : Option String
  regex : Option RE
  weight : Flt
deriving DecidableEq

/-- A canonical mapping item of `financial_mapping.MappingItem`. -/
structure MappingItem where
  canonical_key : String
  statement : String
  period_type : Option String
  candidates : List MappingCandidate
deriving DecidableEq

/-- The typed mapping configuration (`MappingConfig`). -/
structure MappingConfig where
  version : Int
  items : List MappingItem
deriving DecidableEq

/-- Dict form of a candidate spec, input of `CandidateSpec.from_dict`. -/
structure CandDict where
  field : Option String
  exact : Option String
  regex : Option RE
  weight : Option Flt
deriving DecidableEq

/-- Dict form of a mapping item, input of `MappingItem.from_dict`. -/
structure ItemDict where
  canonical_key : Option String
  statement : Option String
  period_type : Option String
  candidates : List CandDict
deriving DecidableEq

/-- Dict form of a mapping, input of `MappingConfig.from_dict`. -/
structure MapDict where
  version : Option Int
  items : List ItemDict
deriving DecidableEq

/-- Model of `CandidateSpec.from_dict`: field defaults to `""`, and the
weight is `float(data.get("weight", 1.0) or 1.0)` — an absent weight or a
falsy (zero) weight falls back to `1.0`. -/
def candidateSpecFromDict (d : CandDict) : MappingCandidate :=
  ⟨d.field.getD "", d.exact, d.regex,
    match d.weight with
    | some w => if w.isZero then fl 1 else w
    | none => fl 1⟩

/-- Model of `MappingItem.from_dict`. -/
def mappingItemFromDict (d : ItemDict) : MappingItem :=
  ⟨d.canonical_key.getD "", d.statement.getD "", d.period_type,
    d.candidates.map candidateSpecFromDict⟩

/-- Model of `MappingConfig.from_dict` (`int(data.get("version", 1) or 1)`
turns a falsy version into `1`). -/
def mappingConfigFromDict (d : MapDict) : MappingConfig :=
  ⟨(match d.version with
    | some v => if v = 0 then 1 else v
    | none => 1),
   d.items.map mappingItemFromDict⟩

/-- Model of `CandidateSpec.to_dict`. -/
def candidateSpecToDict (c : MappingCandidate) : CandDict :=
  ⟨some c.field, c.exact, c.regex, some c.weight⟩

/-- Model of `MappingItem.to_dict`. -/
def mappingItemToDict (it : MappingItem) : ItemDict :=
  ⟨some it.canonical_key, some it.statement, it.period_type,
    it.candidates.map candidateSpecToDict⟩

/-- Model of `MappingConfig.to_dict`. -/
def mappingConfigToDict (cfg : MappingConfig) : MapDict :=
  ⟨some cfg.version, cfg.items.map mappingItemToDict⟩

/-- Insertion into a Python dict keyed by `canonical_key`: a same-keyed
entry is replaced in place, a new key is appended. -/
def dictInsert (l : List MappingItem) (it : MappingItem) : List MappingItem :=
  if l.any (fun x => x.canonical_key = it.canonical_key) then
    l.map (fun x => if x.canonical_key = it.canonical_key then it else x)
  else l ++ [it]

/-- Item-list part of `MappingConfig.merge_over`: base items are loaded
into a dict keyed by `canonical_key`, then each overlay item with a
truthy (non-empty) key replaces/extends the dict, and the dict values are
returned in order. -/
def mergeItems (base overlay : List MappingItem) : List MappingItem :=
  overlay.foldl
    (fun acc it => if it.canonical_key ≠ "" then dictInsert acc it else acc)
    (base.foldl dictInsert [])

/-- Model of `MappingConfig.merge_over`: `None` overlay returns the base
config unchanged (a shallow copy in the source); otherwise items merge by
key with the overlay winning, and the base version is kept. -/
def MappingConfig.mergeOver (cfg : MappingConfig) (overlay : Option MappingConfig) : MappingConfig :=
  match overlay with
  | none => ⟨cfg.version, cfg.items⟩
  | some ov => ⟨cfg.version, mergeItems cfg.items ov.items⟩

/-- Model of the dict-level static `MappingConfig.merge`. -/
def mappingConfigMerge (base : MapDict) (overlay : Option MapDict) : MapDict :=
  mappingConfigToDict
    ((mappingConfigFromDict base).mergeOver (overlay.map mappingConfigFromDict))

/-! ## Analyzer data model (`financial_analyzer.py`)

Fact tables are lists of records.  A raw table with a missing column is
the table whose rows all have `none` in that field (the normalizer
back-fills missing columns with nulls, so the two coincide).  Tables with
a `Period/Setting` or `dimensions` column are outside this model: none of
the claims' inputs carry them, and for such tables the source sets
`dimension_allowed = True` everywhere, as the model does.
-/

/-- Canonical statement types. -/
inductive StatementType where
  | PL | BS | CF | PORTFOLIO | OTHER
deriving DecidableEq

/-- String value of a statement type (`StatementType.value`). -/
def StatementType.val : StatementType → String
  | .PL => "PL"
  | .BS => "BS"
  | .CF => "CF"
  | StatementType.PORTFOLIO => "PORTFOLIO"
  | .OTHER => "OTHER"

/-- Filter configuration to select annual facts (`CanonicalPeriodFilter`,
defaults `prefer_duration=True`, `min_duration_days=300`). -/
structure CanonicalPeriodFilter where
  prefer_duration : Bool
  min_duration_days : Int
deriving DecidableEq

/-- The default `CanonicalPeriodFilter()`. -/
def defaultPeriodFilter : CanonicalPeriodFilter := ⟨true, 300⟩

/-- Mapping rule for a canonical line item (`CanonicalRule`). -/
structure CanonicalRule where
  canonical_key : String
  statement : StatementType
  period_type : Option String
  candidates : List MappingCandidate
deriving DecidableEq

/-- Mapping rule for portfolio position extraction (`PortfolioRule`); the
`exclude_regex` tuple is carried as the translations of its patterns. -/
structure PortfolioRule where
  portfolio_key : String
  period_type : String
  candidates : List MappingCandidate
  aggregate_mode : Option String
  exclude_regex : List RE
deriving DecidableEq

/-- A raw fact row, input of `_normalize_facts`. -/
structure RawFact where
  Tag : Option String
  Element : Option String
  Label : Option String
  Value : Option String
  ContextID : Option String
  Consolidated : Option String
  Standard : Option String
  period_type : Option String
  period_start : Option String
  period_end : Option String
  numeric_value : Option String
  currency : Option String
  is_text_block : Option Bool
deriving DecidableEq

/-- A normalized fact row, output of `_normalize_facts`.  `Consolidated`
holds the coerced boolean; values that coerce to neither boolean behave
like missing ones in every comparison the analyzer performs and are
modelled as `none`. -/
structure NFact where
  Tag : Option String
  Element : Option String
  Label : Option String
  Value : Option String
  ContextID : Option String
  Consolidated : Option Bool
  Standard : Option String
  period_type : Option String
  period_start : Option String
  period_end : String
  period_end_dt : Date
  numeric_value : Option Flt
  duration_days : Option Int
  currency : Option String
  has_currency : Bool
  abs_numeric : Option Flt
  dimension_allowed : Bool
deriving DecidableEq

/-- Coerce a raw `Consolidated` value to a boolean: the strings
`true/1/yes` and `false/0/no` (case/whitespace-insensitive) map to
booleans; anything else stays non-boolean (missing in the model). -/
def coerceConsolidated (s : Option String) : Option Bool :=
  match s with
  | none => none
  | some v =>
    let n := lowerStr (trimStr v)
    if n = "true" || n = "1" || n = "yes" then some true
    else if n = "false" || n = "0" || n = "no" then some false
    else none

/-- Normalize one raw fact row, the row-wise content of
`_normalize_facts`: text blocks and `*TextBlock`-suffixed rows are
dropped, numerics coerce with `Value` fallback, instant facts with a
missing start date get the end date as start, `period_end` is
re-stringified from the parsed date, and rows without a resolvable end
date are dropped. -/
def normalizeFact (r : RawFact) : Option NFact :=
  if r.is_text_block = some true then none
  else if endsWithStr (pyStr r.Element) "TextBlock" || endsWithStr (pyStr r.Tag) "TextBlock"
      || endsWithStr (pyStr r.Label) "TextBlock" then none
  else
    match r.period_end.bind parseDate with
    | none => none
    | some ped =>
      let nv := match r.numeric_value.bind parseDecimal with
        | some q => some q
        | none => r.Value.bind parseDecimal
      let psd := r.period_start.bind parseDate
      let instantBackfill := r.period_type = some "instant" ∧ psd = none
      let psd2 := if instantBackfill then some ped else psd
      let pstart := if instantBackfill then r.period_end else r.period_start
      some
        ⟨r.Tag, r.Element, r.Label, r.Value, r.ContextID,
         coerceConsolidated r.Consolidated, r.Standard, r.period_type,
         pstart, ped.iso, ped, nv,
         psd2.map (fun s => (ped.rataDie : Int) - (s.rataDie : Int)),
         r.currency,
         (match r.currency with
          | some c => decide (c.data.length > 0)
          | none => false),
         nv.map Flt.abs, true⟩

/-- Model of `_normalize_facts` over a whole table. -/
def normalizeFacts (l : List RawFact) : List NFact :=
  l.filterMap normalizeFact

/-- Model of `_candidate_match`: field lookup over element/tag/label
(unknown fields never match), truthy `exact` compares case-insensitively,
otherwise `regex` searches, otherwise no match. -/
def candidateMatch (f : NFact) (c : MappingCandidate) : Bool :=
  let fieldVal : Option String :=
    if c.field = "element" then some (f.Element.getD "")
    else if c.field = "tag" then some (f.Tag.getD "")
    else if c.field = "label" then some (f.Label.getD "")
    else none
  match fieldVal with
  | none => false
  | some v =>
    (match c.exact with
     | some e => decide (e ≠ "") && decide (lowerStr v = lowerStr e)
     | none => false)
    ||
    (match c.regex with
     | some r => research r v
     | none => false)

/-- Does this fact fall under the `TotalEquity` hard exclusion
(`"LiabilitiesAndNetAssets"` occurring in Element or Label)? -/
def hitsEquityGuard (f : NFact) : Bool :=
  containsSub (f.Element.getD "") "LiabilitiesAndNetAssets"
    || containsSub (f.Label.getD "") "LiabilitiesAndNetAssets"

/-- Match score of a fact for a rule: the sum of the weights of all
matching candidates, forced to `0` for `TotalEquity` when the exclusion
string occurs. -/
def scoreRow (rule : CanonicalRule) (f : NFact) : Flt :=
  if rule.canonical_key = "TotalEquity" ∧ hitsEquityGuard f then fl 0
  else rule.candidates.foldl (fun acc c => if candidateMatch f c then acc.add c.weight else acc) (fl 0)

/-- Dimension stage of `_filter_facts`: keep `dimension_allowed` rows
unless dimensioned facts are requested. -/
def stageDim (include_dimensioned : Bool) (l : List NFact) : List NFact :=
  if include_dimensioned then l else l.filter (fun f => f.dimension_allowed)

/-- Rule period-type stage of `_filter_facts` (a falsy period type
filters nothing). -/
def stagePt (period_type : Option String) (l : List NFact) : List NFact :=
  if (period_type.getD "") = "" then l
  else l.filter (fun f => f.period_type = period_type)

/-- Prefer-duration stage of `_filter_facts`: restrict to duration facts
only when at least one is present. -/
def stagePrefer (pf : CanonicalPeriodFilter) (l : List NFact) : List NFact :=
  if pf.prefer_duration then
    (if l.any (fun f => f.period_type = some "duration") then
      l.filter (fun f => f.period_type = some "duration")
    else l)
  else l

/-- Minimum-duration stage of `_filter_facts`: drop short duration-typed
facts; instant facts and missing durations pass. -/
def stageMin (pf : CanonicalPeriodFilter) (l : List NFact) : List NFact :=
  if pf.min_duration_days ≠ 0 then
    l.filter (fun f =>
      !(f.period_type = some "duration") || f.duration_days.isNone
        || decide (pf.min_duration_days ≤ f.duration_days.getD 0))
  else l

/-- Model of `_filter_facts`: dimension filter, rule period-type filter,
prefer-duration restriction (only when a duration fact survives), and the
minimum-duration filter applied to duration facts only. -/
def filterFacts (facts : List NFact) (period_type : Option String)
    (pf : CanonicalPeriodFilter) (include_dimensioned : Bool) : List NFact :=
  stageMin pf (stagePrefer pf (stagePt period_type (stageDim include_dimensioned facts)))

/-! ## Strict weak orders and the stable descending sort

`sort_values` on the five ranking keys (all descending) followed by
`groupby("period_end")` and `iloc[0]` is modelled as a stable insertion
sort under a "strictly better" relation followed by grouping.  The
relation is a strict weak order; the accompanying `SW` lemma kit supports
the ranking/determinism proofs.
-/

/-- A strict weak order `lt` with incomparability relation `eqv`. -/
structure SW {α : Type _} (lt : α → α → Prop) (eqv : α → α → Prop) : Prop where
  trichot : ∀ a b, lt a b ∨ lt b a ∨ eqv a b
  lt_trans : ∀ {a b c}, lt a b → lt b c → lt a c
  eqv_refl : ∀ a, eqv a a
  eqv_symm : ∀ {a b}, eqv a b → eqv b a
  eqv_trans : ∀ {a b c}, eqv a b → eqv b c → eqv a c
  lt_eqv : ∀ {a b c}, lt a b → eqv b c → lt a c
  eqv_lt : ∀ {a b c}, eqv a b → lt b c → lt a c
  not_lt_of_eqv : ∀ {a b}, eqv a b → ¬ lt a b

/-- Order on optional numerics with missing values at the bottom; this is
how a descending pandas sort places NaN keys last. -/
def ofltLt (a b : Option Flt) : Prop :=
  match a, b with
  | none, none => False
  | none, some _ => True
  | some _, none => False
  | some x, some y => x.lt y

/-- Incomparability on optional numerics. -/
def ofltEqv (a b : Option Flt) : Prop :=
  match a, b with
  | none, none => True
  | some x, some y => x.eqv y
  | _, _ => False

instance (a b : Option Flt) : Decidable (ofltLt a b) := by
  unfold ofltLt
  rcases a with _ | x <;> rcases b with _ | y <;> infer_instance

instance (a b : Option Flt) : Decidable (ofltEqv a b) := by
  unfold ofltEqv
  rcases a with _ | x <;> rcases b with _ | y <;> infer_instance

/-- Lexicographic strict order on char lists (by code point), the model
of pandas string ordering used by `groupby`'s sorted keys. -/
def listLt : List Char → List Char → Prop
  | [], [] => False
  | [], _ :: _ => True
  | _ :: _, [] => False
  | a :: as, b :: bs => a.val.toNat < b.val.toNat ∨ (a = b ∧ listLt as bs)

instance listLt.dec : (a b : List Char) → Decidable (listLt a b)
  | [], [] => .isFalse (fun h => h)
  | [], _ :: _ => .isTrue trivial
  | _ :: _, [] => .isFalse (fun h => h)
  | a :: as, b :: bs =>
    have := listLt.dec as bs
    by unfold listLt; infer_instance

/-- String strict order via char lists. -/
def strLt (a b : String) : Prop := listLt a.data b.data

instance (a b : String) : Decidable (strLt a b) := by unfold strLt; infer_instance

/-- Strict order on dates (year, then month, then day). -/
def dateLt (a b : Date) : Prop :=
  a.y < b.y ∨ (a.y = b.y ∧ (a.m < b.m ∨ (a.m = b.m ∧ a.d < b.d)))

instance (a b : Date) : Decidable (dateLt a b) := by unfold dateLt; infer_instance

/-- Strict order on booleans (`False < True`). -/
def boolLt (a b : Bool) : Prop := a = false ∧ b = true

instance (a b : Bool) : Decidable (boolLt a b) := by unfold boolLt; infer_instance

/-! ## Row ranking and per-period selection -/

/-- A scored row: a normalized fact with its `match_score` column. -/
structure SRow where
  f : NFact
  match_score : Flt
deriving DecidableEq

/-- A resolved cell value: the `value` column holds the numeric value
when present, else the raw string `Value`, else null. -/
inductive PVal where
  | num : Flt → PVal
  | str : String → PVal
  | null : PVal
deriving DecidableEq

/-- The `value` column: `numeric_value` where present, else `Value`. -/
def rowValue (f : NFact) : PVal :=
  match f.numeric_value with
  | some q => .num q
  | none =>
    match f.Value with
    | some s => .str s
    | none => .null

/-- The `is_preferred_consolidated` column (`Consolidated == True`). -/
def isPrefCons (f : NFact) : Bool := f.Consolidated = some true

/-- Strict "ranks strictly higher" relation of the five-key descending
sort `(period_end_dt, is_preferred_consolidated, match_score,
has_currency, abs_numeric)`, all keys descending, NaN magnitudes last. -/
def rowBetter (a b : SRow) : Prop :=
  dateLt b.f.period_end_dt a.f.period_end_dt ∨
    (a.f.period_end_dt = b.f.period_end_dt ∧
      (boolLt (isPrefCons b.f) (isPrefCons a.f) ∨
        (isPrefCons a.f = isPrefCons b.f ∧
          (Flt.lt b.match_score a.match_score ∨
            (Flt.eqv a.match_score b.match_score ∧
              (boolLt b.f.has_currency a.f.has_currency ∨
                (a.f.has_currency = b.f.has_currency ∧
                  ofltLt b.f.abs_numeric a.f.abs_numeric)))))))

/-- Full tie on all five sort keys. -/
def rowTie (a b : SRow) : Prop :=
  a.f.period_end_dt = b.f.period_end_dt ∧
    (isPrefCons a.f = isPrefCons b.f ∧
      (Flt.eqv a.match_score b.match_score ∧
        (a.f.has_currency = b.f.has_currency ∧
          ofltEqv a.f.abs_numeric b.f.abs_numeric)))

instance (a b : SRow) : Decidable (rowBetter a b) := by unfold rowBetter; infer_instance

instance (a b : SRow) : Decidable (rowTie a b) := by unfold rowTie; infer_instance

/-! ## Stable sort (insertion sort)

A stable sort is unique: any stable sorting algorithm (pandas uses a
stable multi-key sort here) produces the list ordered by the key with
ties kept in input order, which is what `sInsert`/`sSort` compute.
-/

/-- Insert `x` after the elements strictly better than it. -/
def sInsert {α : Type _} (better : α → α → Prop) [DecidableRel better] (x : α) :
    List α → List α
  | [] => [x]
  | h :: t => if better h x then h :: sInsert better x t else x :: h :: t

/-- Stable sort placing better elements first; ties keep input order. -/
def sSort {α : Type _} (better : α → α → Prop) [DecidableRel better] :
    List α → List α
  | [] => []
  | h :: t => sInsert better h (sSort better t)

/-! ## Rule matching and long-form resolution -/

/-- Rows surviving `_match_rule`'s filter, consolidation, scoring and
positivity steps, in input order. -/
def scoredRows (facts : List NFact) (rule : CanonicalRule)
    (pf : CanonicalPeriodFilter) (cons : Option Bool) : List SRow :=
  let df := filterFacts facts rule.period_type pf false
  let df2 : List NFact := match cons with
    | some b => df.filter (fun f => f.Consolidated = some b)
    | none => df
  (df2.map (fun f => SRow.mk f (scoreRow rule f))).filter
    (fun sr => Flt.lt (fl 0) sr.match_score)

/-- Sorted distinct period-end keys, as produced by
`groupby("period_end")` (group keys ascending). -/
def groupKeys (rows : List SRow) : List String :=
  sSort strLt ((rows.map (fun sr => sr.f.period_end)).dedup)

/-- Winner of one period group: head of the stable five-key descending
sort. -/
def bestOf (g : List SRow) : Option SRow := (sSort rowBetter g).head?

/-- Model of `_match_rule`: one best row per period-end group. -/
def matchRule (facts : List NFact) (rule : CanonicalRule)
    (pf : CanonicalPeriodFilter) (cons : Option Bool) : List SRow :=
  let scored := scoredRows facts rule pf cons
  (groupKeys scored).filterMap
    (fun k => bestOf (scored.filter (fun sr => sr.f.period_end = k)))

/-- A row of the long-form canonical output. -/
structure LongRow where
  canonical_key : String
  statement : String
  period_end : String
  period_start : Option String
  period_type : Option String
  value : PVal
  currency : Option String
  consolidated : Option Bool
  standard : Option String
  tag : Option String
  element : Option String
  label : Option String
  context_id : Option String
  match_score : Flt
deriving DecidableEq

/-- Build the long-form record from a winner row. -/
def toLongRow (rule : CanonicalRule) (sr : SRow) : LongRow :=
  ⟨rule.canonical_key, rule.statement.val, sr.f.period_end, sr.f.period_start,
   sr.f.period_type, rowValue sr.f, sr.f.currency, sr.f.Consolidated,
   sr.f.Standard, sr.f.Tag, sr.f.Element, sr.f.Label, sr.f.ContextID,
   sr.match_score⟩

/-- Model of `resolve_canonical_long` over already-normalized facts and a
rule list. -/
def resolveCanonicalLong (facts : List NFact) (rules : List CanonicalRule)
    (st : StatementType) (pf : CanonicalPeriodFilter) (cons : Option Bool) : List LongRow :=
  (rules.filter (fun r => r.statement = st)).flatMap
    (fun r => (matchRule facts r pf cons).map (toLongRow r))

/-! ## Portfolio extraction (`_match_portfolio_rule`, hard-coded rules) -/

/-- Sum of the weights of the matching candidates (no special cases). -/
def candScore (cands : List MappingCandidate) (f : NFact) : Flt :=
  cands.foldl (fun acc c => if candidateMatch f c then acc.add c.weight else acc) (fl 0)

/-- The `Element + " " + Label + " " + Tag` text (`astype(str)` renders
missing fields as `"None"`) matched against the joined exclusion
patterns. -/
def portExcludeHit (rule : PortfolioRule) (f : NFact) : Bool :=
  research (raltL rule.exclude_regex)
    (pyStr f.Element ++ " " ++ pyStr f.Label ++ " " ++ pyStr f.Tag)

/-- Rows surviving `_match_portfolio_rule`'s filter, exclusion,
consolidation, scoring and positivity steps, in input order. -/
def portScoredRows (facts : List NFact) (rule : PortfolioRule)
    (pf : CanonicalPeriodFilter) (cons : Option Bool) : List SRow :=
  let df := filterFacts facts (some rule.period_type) pf true
  let df1 := if rule.exclude_regex.isEmpty then df
    else df.filter (fun f => !(portExcludeHit rule f))
  let df2 : List NFact := match cons with
    | some b => df1.filter (fun f => f.Consolidated = some b)
    | none => df1
  (df2.map (fun f => SRow.mk f (candScore rule.candidates f))).filter
    (fun sr => Flt.lt (fl 0) sr.match_score)

/-- Numeric coercion of the `value` column
(`pd.to_numeric(df["value"], errors="coerce")`). -/
def valueNum (f : NFact) : Option Flt :=
  match f.numeric_value with
  | some q => some q
  | none => f.Value.bind parseDecimal

/-- A matched portfolio row: the fact, its score, and the resolved value
(the per-period sum in `aggregate_mode="sum"`). -/
structure PRow where
  f : NFact
  match_score : Flt
  value : PVal
deriving DecidableEq

/-- One period group of the scored portfolio rows. -/
def portGroup (scored : List SRow) (k : String) : List SRow :=
  scored.filter (fun sr => sr.f.period_end = k)

/-- In `sum` mode, the consolidated subset of a group is preferred when
any consolidated row exists; otherwise the whole group stays. -/
def portPreferred (g : List SRow) : List SRow :=
  if g.any (fun sr => isPrefCons sr.f) then g.filter (fun sr => isPrefCons sr.f)
  else g

/-- The `skipna` sum of the numeric values of a group. -/
def portTotal (g : List SRow) : Flt :=
  (g.filterMap (fun sr => valueNum sr.f)).foldl Flt.add (fl 0)

/-- Model of `_match_portfolio_rule`.  In `sum` mode each period group
prefers its consolidated subset when non-empty, sums the numeric values
(`skipna`; the sum of floats is never NaN, so only a zero total skips the
period), and the usual five-key ranking picks the representative row
(whose stored magnitude column is not updated by the source). -/
def matchPortfolioRule (facts : List NFact) (rule : PortfolioRule)
    (pf : CanonicalPeriodFilter) (cons : Option Bool) : List PRow :=
  let scored := portScoredRows facts rule pf cons
  if rule.aggregate_mode = some "sum" then
    (groupKeys scored).filterMap (fun k =>
      let g2 := portPreferred (portGroup scored k)
      let total := portTotal g2
      if total.isZero then none
      else (bestOf g2).map (fun w => PRow.mk w.f w.match_score (.num total)))
  else
    (groupKeys scored).filterMap (fun k =>
      (bestOf (portGroup scored k)).map
        (fun w => PRow.mk w.f w.match_score (rowValue w.f)))

/-- The hard-coded `EquitySecurities` portfolio rule (the only one with
`aggregate_mode="sum"`), regexes translated into the `RE` AST (patterns
written lower-case because matching lowers the input). -/
def equitySecuritiesRule : PortfolioRule :=
  ⟨"EquitySecurities", "instant",
    [⟨"element", none, some (rcatL [rstr "bookvaluedetailsof", rdotStar, rstr "equitysecurities"]), fl 1⟩,
     ⟨"label", none, some (rcatL [rstr "book value", rdotStar, rstr "equity securities"]), fl 1⟩],
    some "sum",
    [rstr "numberofshares", rstr "nameofsecurities", rstr "purposesofholding",
     rstr "whetherissuer", rstr "reasonforincrease", rstr "numberofnames"]⟩

/-- The hard-coded portfolio rules of `_portfolio_rules`. -/
def portfolioRules : List PortfolioRule :=
  [equitySecuritiesRule,
   ⟨"DebtSecurities", "instant",
    [⟨"element", none, some (raltL [rstr "debtsecurities", rstr "bondsecurities", rstr "bondssecurities"]), fl 1⟩,
     ⟨"label", none, some (raltL [rstr "debt securities", rstr "bond investments"]), fl 1⟩],
    none, []⟩,
   ⟨"TotalSecurities", "instant",
    [⟨"element", some "InvestmentSecurities", none, flD 12 10 (by decide)⟩,
     ⟨"element", some "SecuritiesAssetsBNK", none, flD 12 10 (by decide)⟩,
     ⟨"element", none, some (rcatL [rbos, rstr "availableforsalesecurities", reos]), fl 1⟩,
     ⟨"element", none, some (rcatL [rbos, rstr "heldtomaturitysecurities", reos]), fl 1⟩,
     ⟨"element", none, some (rcatL [rbos, rstr "tradingsecurities", reos]), fl 1⟩,
     ⟨"label", none, some (raltL [rcatL [rbos, rstr "investment securities", reos],
                                  rcatL [rbos, rstr "securities", reos]]), fl 1⟩],
    none,
    [rstr "valuationdifference", rstr "gainloss", rstr "unrealized", rstr "changesinfairvalue"]⟩,
   ⟨"DerivativeAssets", "instant",
    [⟨"element", none, some (raltL [rstr "derivativeassets", rstr "derivativesassets"]), fl 1⟩,
     ⟨"element", none, some (raltL [rstr "derivativefinancialassets", rstr "derivativesfinancialassets"]), fl 1⟩,
     ⟨"label", none, some (rstr "derivative assets"), fl 1⟩],
    none, []⟩,
   ⟨"DerivativeLiabilities", "instant",
    [⟨"element", none, some (raltL [rstr "derivativeliabilities", rstr "derivativesliabilities"]), fl 1⟩,
     ⟨"element", none, some (raltL [rstr "derivativefinancialliabilities", rstr "derivativesfinancialliabilities"]), fl 1⟩,
     ⟨"label", none, some (rstr "derivative liabilities"), fl 1⟩],
    none, []⟩]

/-- The default portfolio period filter
(`CanonicalPeriodFilter(prefer_duration=False, min_duration_days=0)`). -/
def portDefaultFilter : CanonicalPeriodFilter := ⟨false, 0⟩

/-- A row of the portfolio long-form output. -/
structure PortLongRow where
  portfolio_key : String
  period_end : String
  period_start : Option String
  period_type : Option String
  value : PVal
  currency : Option String
  consolidated : Option Bool
  standard : Option String
  tag : Option String
  element : Option String
  label : Option String
  context_id : Option String
  match_score : Flt
deriving DecidableEq

/-- Model of `get_portfolio_positions`. -/
def getPortfolioPositions (facts : List NFact) (pfOpt : Option CanonicalPeriodFilter)
    (cons : Option Bool) : List PortLongRow :=
  let pf := pfOpt.getD portDefaultFilter
  portfolioRules.flatMap (fun rule =>
    (matchPortfolioRule facts rule pf cons).map (fun r =>
      ⟨rule.portfolio_key, r.f.period_end, r.f.period_start, r.f.period_type,
       r.value, r.f.currency, r.f.Consolidated, r.f.Standard, r.f.Tag,
       r.f.Element, r.f.Label, r.f.ContextID, r.match_score⟩))

/-! ## Portfolio timeseries (cell-level model of `get_portfolio_timeseries`)

The wide table pivots the portfolio long output by `period_label` ×
`portfolio_key` with `aggfunc="first"` (a column exists only when some
row of that key has a non-null value), then applies the derived-column
policy for securities and derivatives.  The model exposes the resulting
table through its cells; `series_defs` renaming is the identity path
(`None`) here.
-/

/-- Numeric coercion of one pivot cell (`pd.to_numeric(..., "coerce")`). -/
def pvalNum (v : PVal) : Option Flt :=
  match v with
  | .num q => some q
  | .str s => parseDecimal s
  | .null => none

/-- Does the pivot have a column for this portfolio key? -/
def ptsColExists (long : List PortLongRow) (k : String) : Bool :=
  long.any (fun r => r.portfolio_key = k && !(r.value = PVal.null))

/-- Raw pivot cell: first non-null value of this key and period. -/
def ptsPivotCell (long : List PortLongRow) (p k : String) : Option PVal :=
  ((long.filter (fun r =>
    r.portfolio_key = k && r.period_end = p && !(r.value = PVal.null))).head?).map
    (fun r => r.value)

/-- Numeric `TotalSecurities` series at a period. -/
def ptsTotalNum (long : List PortLongRow) (p : String) : Option Flt :=
  (ptsPivotCell long p "TotalSecurities").bind pvalNum

/-- Numeric `EquitySecurities` series at a period. -/
def ptsEquityNum (long : List PortLongRow) (p : String) : Option Flt :=
  (ptsPivotCell long p "EquitySecurities").bind pvalNum

/-- The equity value capped at the total
(`equity.where(total.isna() | (equity <= total), total)`). -/
def ptsEqAdj (long : List PortLongRow) (p : String) : Option Flt :=
  match ptsTotalNum long p with
  | none => ptsEquityNum long p
  | some t =>
    match ptsEquityNum long p with
    | some e => if e.le t then some e else some t
    | none => some t

/-- The derived debt series `(total - equityAdjusted).where(> 0, 0)`
(missing differences also floor to `0`). -/
def ptsDerivedDebt (long : List PortLongRow) (p : String) : Flt :=
  match ptsTotalNum long p, ptsEqAdj long p with
  | some t, some a => if Flt.lt (fl 0) (t.sub a) then t.sub a else fl 0
  | _, _ => fl 0

/-- One cell of the (series_defs-less) `get_portfolio_timeseries` output.
An empty long table yields an empty frame (every cell missing). -/
def ptsCell (long : List PortLongRow) (p k : String) : Option PVal :=
  if long.isEmpty then none
  else
    let hasTotal := ptsColExists long "TotalSecurities"
    let hasEquity := ptsColExists long "EquitySecurities"
    let hasDebt := ptsColExists long "DebtSecurities"
    if k = "EquitySecurities" ∧ hasTotal ∧ hasEquity then
      (ptsEqAdj long p).map PVal.num
    else if k = "DebtSecurities" ∧ hasTotal then
      (if hasEquity ∧ ¬ hasDebt then some (PVal.num (ptsDerivedDebt long p))
       else if ¬ hasDebt then (ptsTotalNum long p).map PVal.num
       else ptsPivotCell long p k)
    else if k = "DerivativeNet" ∧ ptsColExists long "DerivativeAssets"
        ∧ ptsColExists long "DerivativeLiabilities" then
      match (ptsPivotCell long p "DerivativeAssets").bind pvalNum,
            (ptsPivotCell long p "DerivativeLiabilities").bind pvalNum with
      | some a, some l => some (PVal.num (a.sub l))
      | _, _ => none
    else ptsPivotCell long p k

/-- Cell of `get_portfolio_timeseries(series_defs=None)` on normalized
facts. -/
def getPortfolioTimeseriesCell (facts : List NFact) (pfOpt : Option CanonicalPeriodFilter)
    (cons : Option Bool) (p k : String) : Option PVal :=
  ptsCell (getPortfolioPositions facts pfOpt cons) p k

/-! ## Canonical wide table and balance-sheet reconciliation -/

/-- A wide-table row: canonical key, chosen label, statement, and one
cell per period column. -/
structure WideRow where
  canonical_key : String
  label : Option String
  statement : String
  cells : List (Option PVal)
deriving DecidableEq

/-- A wide table: period columns and rows. -/
structure WideTable where
  cols : List String
  rows : List WideRow
deriving DecidableEq

/-- The empty wide table (`canonical_wide` returns the empty frame when
the long table is empty). -/
def emptyWide : WideTable := ⟨[], []⟩

/-- Period label of a long row (`period_start + "-" + period_end`, with
`astype(str)` rendering of missing starts). -/
def periodLabelOf (r : LongRow) : String :=
  pyStr r.period_start ++ "-" ++ r.period_end

/-- Lexicographic order on (canonical_key, statement) pairs, the pivot
index order. -/
def pairLt (a b : String × String) : Prop :=
  strLt a.1 b.1 ∨ (a.1 = b.1 ∧ strLt a.2 b.2)

instance (a b : String × String) : Decidable (pairLt a b) := by
  unfold pairLt; infer_instance

/-- Most frequent non-null label for a canonical key; ties resolve to the
smaller label (the stable count-descending sort of labels pre-sorted
ascending keeps the smallest on top). -/
def labelChoice (long : List LongRow) (ck : String) : Option String :=
  let labs := sSort strLt ((long.filterMap
    (fun r => if r.canonical_key = ck then r.label else none)).dedup)
  let count : String → Nat := fun l =>
    (long.filter (fun r => r.canonical_key = ck && r.label = some l)).length
  labs.foldl (fun best l =>
    match best with
    | none => some l
    | some b => if count l > count b then some l else best) none

/-- First non-null value for a pivot cell (`aggfunc="first"`). -/
def wideCellOf (long : List LongRow) (ck st pl : String) : Option PVal :=
  ((long.filter (fun r =>
    r.canonical_key = ck && r.statement = st && periodLabelOf r = pl
      && !(r.value = PVal.null))).head?).map (fun r => r.value)

/-- Model of `canonical_wide`: pivot of the long table with sorted period
columns and sorted (canonical_key, statement) rows, plus the most-common
label per key. -/
def canonicalWide (facts : List NFact) (rules : List CanonicalRule)
    (st : StatementType) : WideTable :=
  let long := resolveCanonicalLong facts rules st defaultPeriodFilter none
  if long.isEmpty then emptyWide
  else
    let cols := sSort strLt ((long.map periodLabelOf).dedup)
    let keys := sSort pairLt ((long.map (fun r => (r.canonical_key, r.statement))).dedup)
    ⟨cols, keys.map (fun ks =>
      ⟨ks.1, labelChoice long ks.1, ks.2, cols.map (wideCellOf long ks.1 ks.2)⟩)⟩

/-- Numeric coercion of a wide cell. -/
def cellNum (c : Option PVal) : Option Flt := c.bind pvalNum

/-- The null-seeded derived liabilities row appended when no
`TotalLiabilities` row exists. -/
def liabNewRow (cols : List String) : WideRow :=
  ⟨"TotalLiabilities", some "Total Liabilities (Derived)", "BS", cols.map (fun _ => none)⟩

/-- The row list after the reconciler's creation step. -/
def reconRows1 (T : WideTable) : List WideRow :=
  if T.rows.any (fun r => r.canonical_key = "TotalLiabilities") then T.rows
  else T.rows ++ [liabNewRow T.cols]

/-- One cell update of the reconciler: given the first assets, equity and
liabilities rows, fill a missing liabilities cell with `assets - equity`
or overwrite it when the relative identity gap exceeds the tolerance. -/
def reconUpd (tol : Flt) (aRow eRow : WideRow) (liab0 : Option WideRow) (i : Nat)
    (old : Option PVal) : Option PVal :=
  match cellNum (aRow.cells.getD i none), cellNum (eRow.cells.getD i none) with
  | some ta, some te =>
    let derived := ta.sub te
    match cellNum ((liab0.map (fun lr => lr.cells.getD i none)).getD none) with
    | none => some (.num derived)
    | some tl =>
      if ¬ ta.isZero ∧ Flt.lt tol (((ta.sub (tl.add te)).abs).div ta.abs) then
        some (.num derived)
      else old
  | _, _ => old

/-- Model of `_reconcile_balance_sheet`: per period column, when assets
and equity are numeric, a missing liabilities cell is filled with
`assets - equity`, and a present one is overwritten when the relative
identity gap exceeds the tolerance; the first liabilities row provides
the compared value and every liabilities row receives updates, a missing
liabilities row is created null-seeded first. -/
def reconcileBS (T : WideTable) (tol : Flt) : WideTable :=
  if T.rows.isEmpty then T
  else if T.cols.isEmpty then T
  else
    match T.rows.find? (fun r => r.canonical_key = "TotalAssets"),
          T.rows.find? (fun r => r.canonical_key = "TotalEquity") with
    | some aRow, some eRow =>
      let rows1 := reconRows1 T
      let liab0 := rows1.find? (fun r => r.canonical_key = "TotalLiabilities")
      ⟨T.cols, rows1.map (fun r =>
        if r.canonical_key = "TotalLiabilities" then
          ⟨r.canonical_key, r.label, r.statement,
           (List.range T.cols.length).map (fun i => reconUpd tol aRow eRow liab0 i (r.cells.getD i none))⟩
        else r)⟩
    | _, _ => T

/-- The default reconciliation tolerance (`0.03`). -/
def bsTolerance : Flt := flD 3 100 (by decide)

/-- Model of `get_bs_data`: the wide BS table put through the
reconciler. -/
def getBSData (facts : List NFact) (rules : List CanonicalRule) : WideTable :=
  reconcileBS (canonicalWide facts rules .BS) bsTolerance

/-! ## Concrete fixtures for the spec scenarios -/

/-- The consolidated `NetSalesIFRS` fact of the spec scenario. -/
def rawC1a : RawFact := ⟨none, some "NetSalesIFRS", none, none, none, some "true", none,
  none, some "2023-04-01", some "2024-03-31", some "1000", none, none⟩

/-- The non-consolidated `NetSalesIFRS` fact of the spec scenario. -/
def rawC1b : RawFact := ⟨none, some "NetSalesIFRS", none, none, none, some "false", none,
  none, some "2023-04-01", some "2024-03-31", some "900", none, none⟩

/-- The scenario Revenue rule: one weight-4.0 exact element candidate
`NetSalesIFRS` (the scenario specifies no period type). -/
def revenueRuleC1 : CanonicalRule :=
  ⟨"Revenue", .PL, none, [⟨"element", some "NetSalesIFRS", none, fl 4⟩]⟩

/-- The normalized consolidated scenario fact. -/
def nfC1a : NFact := ⟨none, some "NetSalesIFRS", none, none, none, some true, none,
  none, some "2023-04-01", "2024-03-31", ⟨2024, 3, 31⟩, some (fl 1000), some 365,
  none, false, some (fl 1000), true⟩

/-- The scenario winner row (consolidated fact, score 4). -/
def c1W : SRow := ⟨nfC1a, fl 4⟩

/-- The default `TotalEquity` rule of `MappingConfig.default_mapping`,
regexes translated into the `RE` AST. -/
def totalEquityRule : CanonicalRule := ⟨"TotalEquity", .BS, some "instant",
  [⟨"element", some "EquityIFRS", none, flD 35 10 (by decide)⟩,
   ⟨"element", some "Equity", none, fl 3⟩,
   ⟨"element", some "EquityAttributableToOwnersOfParentIFRSSummaryOfBusinessResults", none, fl 2⟩,
   ⟨"element", none, some (raltL [rstr "netassetssummaryofbusinessresults", rstr "netassets"]), fl 3⟩,
   ⟨"element", none, some (raltL [rcatL [rstr "equity", reos], rstr "totalequity"]), flD 25 10 (by decide)⟩,
   ⟨"label", none, some (raltL [rstr "total equity",
      rcatL [rstr "equity", ropt (RE.lit ','), rstr " total"]]), fl 1⟩]⟩

/-- A balance-sheet fact whose label is the spaced "Liabilities and Net
Assets" (its element does not contain the camel-case guard string). -/
def rawC3 : RawFact := ⟨none, some "NetAssetsTotal", some "Liabilities and Net Assets",
  none, none, none, none, some "instant", none, some "2024-03-31", some "500", none, none⟩

/-- An instant-typed fact matching the C7 witness rule. -/
def rawC7i : RawFact := ⟨none, some "Assets", none, none, none, none, none,
  some "instant", none, some "2024-03-31", some "500", none, none⟩

/-- A duration-typed fact matching the C7 witness rule. -/
def rawC7d : RawFact := ⟨none, some "Assets", none, none, none, none, none,
  some "duration", some "2023-04-01", some "2024-03-31", some "600", none, none⟩

/-- An instant-only rule for the C7 witness. -/
def c7Rule : CanonicalRule :=
  ⟨"TotalAssets", .BS, some "instant", [⟨"element", some "Assets", none, fl 3⟩]⟩

/-- The normalized instant C7 fact (start backfilled from the end date). -/
def nfC7i : NFact := ⟨none, some "Assets", none, none, none, none, none,
  some "instant", some "2024-03-31", "2024-03-31", ⟨2024, 3, 31⟩, some (fl 500), some 0,
  none, false, some (fl 500), true⟩

/-- The C7 witness winner row. -/
def c7W : SRow := ⟨nfC7i, fl 3⟩

/-- A second Revenue rule with the same canonical key (a mapping dict may
carry duplicate-keyed items; `_rules_from_mapping` keeps them all). -/
def revenueRuleC2 : CanonicalRule :=
  ⟨"Revenue", .PL, none, [⟨"element", some "NetSalesIFRS", none, fl 2⟩]⟩

/-- A consolidated fact with currency, value 1000 (full-tie setup). -/
def rawC8a : RawFact := ⟨none, some "NetSalesIFRS", none, none, some "c1", some "true", none,
  none, some "2023-04-01", some "2024-03-31", some "1000", some "JPY", none⟩

/-- A consolidated fact with currency, value -1000: same absolute
magnitude, same score, same period — a full five-key tie with `rawC8a`. -/
def rawC8b : RawFact := ⟨none, some "NetSalesIFRS", none, none, some "c2", some "true", none,
  none, some "2023-04-01", some "2024-03-31", some "-1000", some "JPY", none⟩

/-! ## Claim C4: sum-mode portfolio aggregation -/

/-- A matching equity-securities component worth 30. -/
def rawC4a : RawFact := ⟨none, some "BookValueDetailsOfEquitySecurities", none, none, none,
  none, none, some "instant", none, some "2024-03-31", some "30", none, none⟩

/-- A matching equity-securities component worth 70. -/
def rawC4b : RawFact := ⟨none, some "BookValueDetailsOfEquitySecurities", none, none, none,
  none, none, some "instant", none, some "2024-03-31", some "70", none, none⟩

/-- A matching equity-securities component worth -70 (for the negative
total counterexample). -/
def rawC4n : RawFact := ⟨none, some "BookValueDetailsOfEquitySecurities", none, none, none,
  none, none, some "instant", none, some "2024-03-31", some "-70", none, none⟩

/-- The normalized 70-valued component. -/
def nfC4b : NFact := ⟨none, some "BookValueDetailsOfEquitySecurities", none, none, none,
  none, none, some "instant", some "2024-03-31", "2024-03-31", ⟨2024, 3, 31⟩,
  some (fl 70), some 0, none, false, some (fl 70), true⟩

/-- The representative row of the C4 scenario (the 70-valued fact wins
the magnitude tie-break and carries the summed value 100). -/
def c4W : PRow := ⟨nfC4b, fl 1, .num (fl 100)⟩

/-! ## Claim C5: balance-sheet reconciliation -/

/-- The 100/40/55 scenario table (relative gap 5%). -/
def bsT1 : WideTable := ⟨["2023-04-01-2024-03-31"],
  [⟨"TotalAssets", some "Total Assets", "BS", [some (.num (fl 100))]⟩,
   ⟨"TotalEquity", some "Total Equity", "BS", [some (.num (fl 40))]⟩,
   ⟨"TotalLiabilities", some "Total Liabilities", "BS", [some (.num (fl 55))]⟩]⟩

/-- The 100/40/58 scenario table (relative gap 2%). -/
def bsT2 : WideTable := ⟨["2023-04-01-2024-03-31"],
  [⟨"TotalAssets", some "Total Assets", "BS", [some (.num (fl 100))]⟩,
   ⟨"TotalEquity", some "Total Equity", "BS", [some (.num (fl 40))]⟩,
   ⟨"TotalLiabilities", some "Total Liabilities", "BS", [some (.num (fl 58))]⟩]⟩

/-! ## Claim C6: mapping merge algebra -/

/-- First item of `l` whose `canonical_key` is `k` (dict lookup order). -/
def findKey (l : List MappingItem) (k : String) : Option MappingItem :=
  l.find? (fun x => x.canonical_key = k)

/-- Last item of `l` whose `canonical_key` is `k` (dict overwrite order). -/
def lastWith (l : List MappingItem) (k : String) : Option MappingItem :=
  l.reverse.find? (fun x => x.canonical_key = k)

/-- Base config for the C6 witness. -/
def c6Base : MappingConfig := ⟨1, [⟨"Revenue", "PL", none, []⟩]⟩

/-- Overlay config for the C6 witness, replacing the Revenue item. -/
def c6Ov : MappingConfig := ⟨2, [⟨"Revenue", "PL", some "duration", []⟩]⟩

/-! ## Theorems -/

namespace Flt

theorem eqv_refl (a : Flt) : a.eqv a := rfl

theorem eqv_symm {a b : Flt} (h : a.eqv b) : b.eqv a := h.symm

theorem lt_trans {a b c : Flt} (h1 : a.lt b) (h2 : b.lt c) : a.lt c := by
  unfold Flt.lt at *
  have hb : (0:Int) < b.den := Int.ofNat_pos.mpr b.den_pos
  have ha : (0:Int) < a.den := Int.ofNat_pos.mpr a.den_pos
  have hc : (0:Int) < c.den := Int.ofNat_pos.mpr c.den_pos
  nlinarith [mul_lt_mul_of_pos_right h1 hc, mul_lt_mul_of_pos_right h2 ha]

theorem eqv_trans {a b c : Flt} (h1 : a.eqv b) (h2 : b.eqv c) : a.eqv c := by
  unfold Flt.eqv at *
  have hb : (0:Int) < b.den := Int.ofNat_pos.mpr b.den_pos
  have h3 : a.num * c.den * b.den = c.num * a.den * b.den := by nlinarith
  exact mul_right_cancel₀ (ne_of_gt hb) h3

theorem lt_of_lt_of_eqv {a b c : Flt} (h1 : a.lt b) (h2 : b.eqv c) : a.lt c := by
  unfold Flt.lt at *
  unfold Flt.eqv at h2
  have hb : (0:Int) < b.den := Int.ofNat_pos.mpr b.den_pos
  have ha : (0:Int) < a.den := Int.ofNat_pos.mpr a.den_pos
  have hc : (0:Int) < c.den := Int.ofNat_pos.mpr c.den_pos
  nlinarith [mul_lt_mul_of_pos_right h1 hc]

theorem lt_of_eqv_of_lt {a b c : Flt} (h1 : a.eqv b) (h2 : b.lt c) : a.lt c := by
  unfold Flt.lt at *
  unfold Flt.eqv at h1
  have hb : (0:Int) < b.den := Int.ofNat_pos.mpr b.den_pos
  have ha : (0:Int) < a.den := Int.ofNat_pos.mpr a.den_pos
  have hc : (0:Int) < c.den := Int.ofNat_pos.mpr c.den_pos
  nlinarith [mul_lt_mul_of_pos_right h2 ha]

theorem lt_trichot (a b : Flt) : a.lt b ∨ b.lt a ∨ a.eqv b := by
  unfold Flt.lt Flt.eqv
  omega

theorem lt_irrefl_of_eqv {a b : Flt} (h : a.eqv b) : ¬ a.lt b := by
  unfold Flt.eqv at h
  unfold Flt.lt
  omega

end Flt

theorem SW.lt_irrefl {α : Type _} {lt eqv : α → α → Prop} (h : SW lt eqv) (a : α) : ¬ lt a a :=
  h.not_lt_of_eqv (h.eqv_refl a)

theorem SW.lt_asymm {α : Type _} {lt eqv : α → α → Prop} (h : SW lt eqv) {a b : α}
    (hab : lt a b) : ¬ lt b a := fun hba => h.lt_irrefl a (h.lt_trans hab hba)

/-- Lexicographic composition of two strict weak orders. -/
theorem SW.lex {α : Type _} {lt1 eqv1 lt2 eqv2 : α → α → Prop}
    (h1 : SW lt1 eqv1) (h2 : SW lt2 eqv2) :
    SW (fun a b => lt1 a b ∨ (eqv1 a b ∧ lt2 a b)) (fun a b => eqv1 a b ∧ eqv2 a b) := by
  constructor
  · intro a b
    rcases h1.trichot a b with h | h | h
    · exact .inl (.inl h)
    · exact .inr (.inl (.inl h))
    · rcases h2.trichot a b with g | g | g
      · exact .inl (.inr ⟨h, g⟩)
      · exact .inr (.inl (.inr ⟨h1.eqv_symm h, g⟩))
      · exact .inr (.inr ⟨h, g⟩)
  · rintro a b c (h | ⟨he, h⟩) (g | ⟨ge, g⟩)
    · exact .inl (h1.lt_trans h g)
    · exact .inl (h1.lt_eqv h ge)
    · exact .inl (h1.eqv_lt he g)
    · exact .inr ⟨h1.eqv_trans he ge, h2.lt_trans h g⟩
  · exact fun a => ⟨h1.eqv_refl a, h2.eqv_refl a⟩
  · exact fun h => ⟨h1.eqv_symm h.1, h2.eqv_symm h.2⟩
  · exact fun h g => ⟨h1.eqv_trans h.1 g.1, h2.eqv_trans h.2 g.2⟩
  · rintro a b c (h | ⟨he, h⟩) ⟨ge, ge2⟩
    · exact .inl (h1.lt_eqv h ge)
    · exact .inr ⟨h1.eqv_trans he ge, h2.lt_eqv h ge2⟩
  · rintro a b c ⟨he, he2⟩ (g | ⟨ge, g⟩)
    · exact .inl (h1.eqv_lt he g)
    · exact .inr ⟨h1.eqv_trans he ge, h2.eqv_lt he2 g⟩
  · rintro a b ⟨he, he2⟩ (g | ⟨_, g⟩)
    · exact h1.not_lt_of_eqv he g
    · exact h2.not_lt_of_eqv he2 g

/-- Pull back a strict weak order along a function. -/
theorem SW.comap {α β : Type _} {lt eqv : β → β → Prop} (f : α → β) (h : SW lt eqv) :
    SW (fun a b => lt (f a) (f b)) (fun a b => eqv (f a) (f b)) := by
  constructor
  · exact fun a b => h.trichot (f a) (f b)
  · exact fun hab hbc => h.lt_trans hab hbc
  · exact fun a => h.eqv_refl (f a)
  · exact fun hab => h.eqv_symm hab
  · exact fun hab hbc => h.eqv_trans hab hbc
  · exact fun hab hbc => h.lt_eqv hab hbc
  · exact fun hab hbc => h.eqv_lt hab hbc
  · exact fun hab => h.not_lt_of_eqv hab

/-- Any linear order is a strict weak order with equality. -/
theorem swOfLinear {α : Type _} [LinearOrder α] : SW (fun a b : α => a < b) (fun a b => a = b) := by
  constructor
  · intro a b
    rcases lt_trichotomy a b with h | h | h
    · exact .inl h
    · exact .inr (.inr h)
    · exact .inr (.inl h)
  · exact fun h g => lt_trans h g
  · exact fun _ => rfl
  · exact fun h => h.symm
  · exact fun h g => h.trans g
  · exact fun h g => g ▸ h
  · exact fun h g => h ▸ g
  · exact fun h => h ▸ lt_irrefl _

/-- The strict weak order bundle for `Flt` numeric comparison. -/
theorem swFlt : SW Flt.lt Flt.eqv := by
  constructor
  · exact Flt.lt_trichot
  · exact fun h g => Flt.lt_trans h g
  · exact Flt.eqv_refl
  · exact fun h => Flt.eqv_symm h
  · exact fun h g => Flt.eqv_trans h g
  · exact fun h g => Flt.lt_of_lt_of_eqv h g
  · exact fun h g => Flt.lt_of_eqv_of_lt h g
  · exact fun h => Flt.lt_irrefl_of_eqv h

theorem swOflt : SW ofltLt ofltEqv := by
  constructor
  · intro a b
    rcases a with _ | x <;> rcases b with _ | y <;> simp [ofltLt, ofltEqv]
    exact Flt.lt_trichot x y
  · intro a b c h g
    rcases a with _ | x <;> rcases b with _ | y <;> rcases c with _ | z <;>
      simp [ofltLt] at * <;> try exact Flt.lt_trans h g
  · intro a; rcases a with _ | x <;> simp [ofltEqv]
    exact Flt.eqv_refl x
  · intro a b h
    rcases a with _ | x <;> rcases b with _ | y <;> simp [ofltEqv] at * <;>
      exact Flt.eqv_symm h
  · intro a b c h g
    rcases a with _ | x <;> rcases b with _ | y <;> rcases c with _ | z <;>
      simp [ofltEqv] at * <;> exact Flt.eqv_trans h g
  · intro a b c h g
    rcases a with _ | x <;> rcases b with _ | y <;> rcases c with _ | z <;>
      simp [ofltLt, ofltEqv] at * <;> exact Flt.lt_of_lt_of_eqv h g
  · intro a b c h g
    rcases a with _ | x <;> rcases b with _ | y <;> rcases c with _ | z <;>
      simp [ofltLt, ofltEqv] at * <;> exact Flt.lt_of_eqv_of_lt h g
  · intro a b h
    rcases a with _ | x <;> rcases b with _ | y <;> simp [ofltLt, ofltEqv] at * <;>
      exact Flt.lt_irrefl_of_eqv h

theorem listLt_trichot : ∀ a b, listLt a b ∨ listLt b a ∨ a = b
  | [], [] => .inr (.inr rfl)
  | [], _ :: _ => .inl trivial
  | _ :: _, [] => .inr (.inl trivial)
  | a :: as, b :: bs => by
    rcases Nat.lt_trichotomy a.val.toNat b.val.toNat with h | h | h
    · exact .inl (.inl h)
    · have hab : a = b := Char.ext (UInt32.toNat.inj h)
      rcases listLt_trichot as bs with g | g | g
      · exact .inl (.inr ⟨hab, g⟩)
      · exact .inr (.inl (.inr ⟨hab.symm, g⟩))
      · exact .inr (.inr (by rw [hab, g]))
    · exact .inr (.inl (.inl h))

theorem listLt_trans : ∀ {a b c}, listLt a b → listLt b c → listLt a c
  | [], [], _, h, _ => absurd h (fun x => x)
  | [], _ :: _, [], _, h => absurd h (fun x => x)
  | [], _ :: _, _ :: _, _, _ => trivial
  | _ :: _, [], _, h, _ => absurd h (fun x => x)
  | _ :: _, _ :: _, [], _, h => absurd h (fun x => x)
  | a :: as, b :: bs, c :: cs, h, g => by
    rcases h with h | ⟨hab, h⟩ <;> rcases g with g | ⟨hbc, g⟩
    · exact .inl (Nat.lt_trans h g)
    · exact .inl (hbc ▸ h)
    · exact .inl (hab ▸ g)
    · exact .inr ⟨hab.trans hbc, listLt_trans h g⟩

theorem listLt_irrefl : ∀ a, ¬ listLt a a
  | [] => fun h => h
  | a :: as => by
    rintro (h | ⟨_, h⟩)
    · omega
    · exact listLt_irrefl as h

theorem swStr : SW strLt (fun a b : String => a = b) := by
  constructor
  · intro a b
    rcases listLt_trichot a.data b.data with h | h | h
    · exact .inl h
    · exact .inr (.inl h)
    · refine .inr (.inr ?_)
      cases a
      cases b
      exact congrArg String.mk h
  · exact fun h g => listLt_trans h g
  · exact fun _ => rfl
  · exact fun h => h.symm
  · exact fun h g => h.trans g
  · exact fun h g => g ▸ h
  · exact fun h g => h ▸ g
  · exact fun h => h ▸ listLt_irrefl _

theorem swDate : SW dateLt (fun a b : Date => a = b) := by
  constructor
  · intro a b
    rcases a with ⟨ay, am, ad⟩
    rcases b with ⟨cy, cm, cd⟩
    simp only [dateLt, Date.mk.injEq]
    omega
  · intro a b c h g
    rcases a with ⟨ay, am, ad⟩
    rcases b with ⟨yy, mm, dd⟩
    rcases c with ⟨cy, cm, cd⟩
    simp only [dateLt] at h g ⊢
    omega
  · exact fun _ => rfl
  · exact fun h => h.symm
  · exact fun h g => h.trans g
  · exact fun h g => g ▸ h
  · exact fun h g => h ▸ g
  · intro a b h g
    subst h
    rcases a with ⟨ay, am, ad⟩
    simp only [dateLt] at g
    omega

theorem swBool : SW boolLt (fun a b : Bool => a = b) := by
  constructor
  · intro a b
    rcases a <;> rcases b <;> simp [boolLt]
  · intro a b c h g
    rcases h with ⟨h1, h2⟩
    rcases g with ⟨g1, g2⟩
    rw [h2] at g1
    cases g1
  · exact fun _ => rfl
  · exact fun h => h.symm
  · exact fun h g => h.trans g
  · exact fun h g => g ▸ h
  · exact fun h g => h ▸ g
  · intro a b h g
    rcases g with ⟨g1, g2⟩
    rw [h, g2] at g1
    cases g1

theorem SW.flipLt {α : Type _} {lt eqv : α → α → Prop} (h : SW lt eqv) :
    SW (fun a b => lt b a) eqv := by
  constructor
  · intro a b
    rcases h.trichot b a with g | g | g
    · exact .inl g
    · exact .inr (.inl g)
    · exact .inr (.inr (h.eqv_symm g))
  · exact fun hab hbc => h.lt_trans hbc hab
  · exact h.eqv_refl
  · exact fun hab => h.eqv_symm hab
  · exact fun hab hbc => h.eqv_trans hab hbc
  · exact fun hab hbc => h.eqv_lt (h.eqv_symm hbc) hab
  · exact fun hab hbc => h.lt_eqv hbc (h.eqv_symm hab)
  · exact fun hab => h.not_lt_of_eqv (h.eqv_symm hab)

theorem swRow : SW rowBetter rowTie := by
  have h5 := SW.comap (fun sr : SRow => sr.f.abs_numeric) (SW.flipLt swOflt)
  have h4 := SW.lex (SW.comap (fun sr : SRow => sr.f.has_currency) (SW.flipLt swBool)) h5
  have h3 := SW.lex (SW.comap (fun sr : SRow => sr.match_score) (SW.flipLt swFlt)) h4
  have h2 := SW.lex (SW.comap (fun sr : SRow => isPrefCons sr.f) (SW.flipLt swBool)) h3
  have h1 := SW.lex (SW.comap (fun sr : SRow => sr.f.period_end_dt) (SW.flipLt swDate)) h2
  exact h1

theorem sInsert_perm {α : Type _} (better : α → α → Prop) [DecidableRel better]
    (x : α) : ∀ l, (sInsert better x l).Perm (x :: l)
  | [] => List.Perm.refl _
  | h :: t => by
    unfold sInsert
    by_cases hb : better h x
    · simp only [if_pos hb]
      exact ((sInsert_perm better x t).cons h).trans (List.Perm.swap x h t)
    · simp only [if_neg hb]
      exact List.Perm.refl _

theorem sSort_perm {α : Type _} (better : α → α → Prop) [DecidableRel better] :
    ∀ l, (sSort better l).Perm l
  | [] => List.Perm.refl _
  | h :: t => by
    unfold sSort
    exact (sInsert_perm better h (sSort better t)).trans ((sSort_perm better t).cons h)

theorem sInsert_sorted {α : Type _} {better tie : α → α → Prop} [DecidableRel better]
    (hsw : SW better tie) (x : α) :
    ∀ {l}, l.Pairwise (fun a b => ¬ better b a) →
      (sInsert better x l).Pairwise (fun a b => ¬ better b a) := by
  intro l
  induction l with
  | nil => intro _; exact List.pairwise_singleton _ x
  | cons h t ih =>
    intro hp
    rcases List.pairwise_cons.mp hp with ⟨hhead, htail⟩
    unfold sInsert
    by_cases hb : better h x
    · simp only [if_pos hb]
      refine List.pairwise_cons.mpr ⟨?_, ih htail⟩
      intro y hy
      have hy2 := (sInsert_perm better x t).mem_iff.mp hy
      rcases List.mem_cons.mp hy2 with rfl | hyt
      · exact hsw.lt_asymm hb
      · exact hhead y hyt
    · simp only [if_neg hb]
      refine List.pairwise_cons.mpr ⟨?_, hp⟩
      intro y hy
      rcases List.mem_cons.mp hy with rfl | hyt
      · exact hb
      · intro hyx
        have hyh := hhead y hyt
        rcases hsw.trichot y h with g | g | g
        · exact hyh g
        · exact hb (hsw.lt_trans g hyx)
        · exact hb (hsw.eqv_lt (hsw.eqv_symm g) hyx)

theorem sSort_sorted {α : Type _} {better tie : α → α → Prop} [DecidableRel better]
    (hsw : SW better tie) :
    ∀ l : List α, (sSort better l).Pairwise (fun a b => ¬ better b a)
  | [] => List.Pairwise.nil
  | h :: t => by
    unfold sSort
    exact sInsert_sorted hsw h (sSort_sorted hsw t)

/-- The head of the stable descending sort is a member of the list that
no other member strictly beats. -/
theorem sSort_head_max {α : Type _} {better tie : α → α → Prop} [DecidableRel better]
    (hsw : SW better tie) {l : List α} {m : α} {rest : List α}
    (hs : sSort better l = m :: rest) :
    m ∈ l ∧ ∀ y ∈ l, ¬ better y m := by
  have hperm := sSort_perm better l
  rw [hs] at hperm
  constructor
  · exact hperm.mem_iff.mp (List.mem_cons_self m rest)
  · intro y hy
    have hy2 : y ∈ m :: rest := hperm.mem_iff.mpr hy
    have hsorted := sSort_sorted hsw l
    rw [hs] at hsorted
    rcases List.mem_cons.mp hy2 with rfl | hyt
    · exact hsw.lt_irrefl y
    · exact (List.pairwise_cons.mp hsorted).1 y hyt

/-- Permutation-invariance of the selected head under a no-tie
hypothesis: if full key ties only occur between equal elements, the head
of the stable sort does not depend on the input order. -/
theorem sSort_head_perm {α : Type _} {better tie : α → α → Prop} [DecidableRel better]
    (hsw : SW better tie) {l1 l2 : List α} (hp : l1.Perm l2)
    (hnt : ∀ a ∈ l1, ∀ b ∈ l1, tie a b → a = b) :
    (sSort better l1).head? = (sSort better l2).head? := by
  cases hs1 : sSort better l1 with
  | nil =>
    have : l1 = [] := List.Perm.eq_nil (hs1 ▸ sSort_perm better l1).symm
    have : l2 = [] := List.Perm.eq_nil (hp.symm.trans (by rw [this]))
    rw [this]
    rfl
  | cons m1 r1 =>
    cases hs2 : sSort better l2 with
    | nil =>
      have h2 : l2 = [] := List.Perm.eq_nil (hs2 ▸ sSort_perm better l2).symm
      have h1 : l1 = [] := List.Perm.eq_nil (hp.trans (by rw [h2]))
      rw [h1] at hs1
      simp [sSort] at hs1
    | cons m2 r2 =>
      rcases sSort_head_max hsw hs1 with ⟨hm1, hmax1⟩
      rcases sSort_head_max hsw hs2 with ⟨hm2, hmax2⟩
      have hm2' : m2 ∈ l1 := hp.mem_iff.mpr hm2
      have hm1' : m1 ∈ l2 := hp.mem_iff.mp hm1
      have h12 : ¬ better m2 m1 := hmax1 m2 hm2'
      have h21 : ¬ better m1 m2 := hmax2 m1 hm1'
      rcases hsw.trichot m1 m2 with g | g | g
      · exact absurd g h21
      · exact absurd g h12
      · have := hnt m1 hm1 m2 hm2' g
        simp [this]

/-! ## Selection lemmas -/

theorem bestOf_mem {g : List SRow} {w : SRow} (h : bestOf g = some w) :
    w ∈ g ∧ ∀ x ∈ g, ¬ rowBetter x w := by
  unfold bestOf at h
  cases hs : sSort rowBetter g with
  | nil => rw [hs] at h; cases h
  | cons m rest =>
    rw [hs] at h
    have hm : m = w := by simpa using h
    subst hm
    exact sSort_head_max swRow hs

theorem bestOf_isSome {g : List SRow} (h : g ≠ []) : ∃ w, bestOf g = some w := by
  unfold bestOf
  cases hs : sSort rowBetter g with
  | nil =>
    have := sSort_perm rowBetter g
    rw [hs] at this
    exact absurd this.symm.eq_nil h
  | cons m rest => exact ⟨m, rfl⟩

theorem mem_scoredRows {facts : List NFact} {rule : CanonicalRule}
    {pf : CanonicalPeriodFilter} {cons : Option Bool} {sr : SRow}
    (h : sr ∈ scoredRows facts rule pf cons) :
    sr.f ∈ filterFacts facts rule.period_type pf false ∧
      sr.match_score = scoreRow rule sr.f ∧ Flt.lt (fl 0) sr.match_score := by
  rcases cons with _ | b <;> simp only [scoredRows] at h <;>
    rcases List.mem_filter.mp h with ⟨hmem, hpos⟩ <;>
    rcases List.mem_map.mp hmem with ⟨f, hf, rfl⟩
  · exact ⟨hf, rfl, by simpa using hpos⟩
  · exact ⟨(List.mem_filter.mp hf).1, rfl, by simpa using hpos⟩

theorem mem_matchRule {facts : List NFact} {rule : CanonicalRule}
    {pf : CanonicalPeriodFilter} {cons : Option Bool} {w : SRow}
    (hw : w ∈ matchRule facts rule pf cons) :
    w ∈ scoredRows facts rule pf cons ∧
      ∀ x ∈ scoredRows facts rule pf cons,
        x.f.period_end = w.f.period_end → ¬ rowBetter x w := by
  unfold matchRule at hw
  rcases List.mem_filterMap.mp hw with ⟨k, hk, hbest⟩
  rcases bestOf_mem hbest with ⟨hmem, hmax⟩
  rcases List.mem_filter.mp hmem with ⟨hs, hpe⟩
  have hpe' : w.f.period_end = k := by simpa using hpe
  refine ⟨hs, ?_⟩
  intro x hx hpex
  exact hmax x (List.mem_filter.mpr ⟨hx, by simp [hpex, hpe']⟩)

theorem iteFilterSubset {α : Type _} {c : Prop} [Decidable c] (l : List α) (p : α → Bool) :
    (if c then l.filter p else l) ⊆ l := by
  split
  · exact fun x hx => (List.mem_filter.mp hx).1
  · exact fun _ h => h

theorem filterFacts_pt {facts : List NFact} {pt : String} {pf : CanonicalPeriodFilter}
    {incl : Bool} {f : NFact} (hpt : pt ≠ "")
    (h : f ∈ filterFacts facts (some pt) pf incl) : f.period_type = some pt := by
  unfold filterFacts stageMin stagePrefer stagePt at h
  simp only [Option.getD_some, if_neg hpt] at h
  have key : ∀ l : List NFact, f ∈ l.filter (fun g => decide (g.period_type = some pt)) →
      f.period_type = some pt :=
    fun l hl => of_decide_eq_true (List.mem_filter.mp hl).2
  have h2 := iteFilterSubset _ _ h
  by_cases hp : pf.prefer_duration = true
  · rw [if_pos hp] at h2
    exact key _ (iteFilterSubset _ _ h2)
  · rw [if_neg hp] at h2
    exact key _ h2

/-! ## Claim C7: instant vs duration filter -/

/-- Forcing lemma: a `TotalEquity` fact containing the guard string
scores zero regardless of the matchers. -/
theorem scoreRow_guard_zero {rule : CanonicalRule} {f : NFact}
    (h1 : rule.canonical_key = "TotalEquity") (h2 : hitsEquityGuard f = true) :
    scoreRow rule f = fl 0 := by
  unfold scoreRow
  rw [if_pos ⟨h1, h2⟩]

/-- C7: a rule with `period_type="instant"` never returns a fact whose
normalized `period_type` is `"duration"`, and symmetrically, for every
facts table, period filter, and consolidation argument. -/
theorem c7_period_type_filter :
    ∀ (facts : List NFact) (rule : CanonicalRule) (pf : CanonicalPeriodFilter)
      (cons : Option Bool) (w : SRow), w ∈ matchRule facts rule pf cons →
      (rule.period_type = some "instant" →
        w.f.period_type = some "instant" ∧ w.f.period_type ≠ some "duration") ∧
      (rule.period_type = some "duration" →
        w.f.period_type = some "duration" ∧ w.f.period_type ≠ some "instant") := by
  intro facts rule pf cons w hw
  have h2 := (mem_scoredRows (mem_matchRule hw).1).1
  constructor
  · intro hr
    rw [hr] at h2
    have := filterFacts_pt (by decide) h2
    exact ⟨this, by simp [this]⟩
  · intro hr
    rw [hr] at h2
    have := filterFacts_pt (by decide) h2
    exact ⟨this, by simp [this]⟩

/-- Witness for C7 at a concrete table holding one instant and one
duration fact for the same element. -/
theorem c7_witness :
    (c7W ∈ matchRule (normalizeFacts [rawC7i, rawC7d]) c7Rule defaultPeriodFilter none) ∧
      (c7W.f.period_type = some "instant" ∧ c7W.f.period_type ≠ some "duration") :=
  ⟨by decide,
   (c7_period_type_filter (normalizeFacts [rawC7i, rawC7d]) c7Rule defaultPeriodFilter
      none c7W (by decide)).1 rfl⟩

/-! ## Claim C1: five-key descending ranking and the Revenue scenario -/

/-- C1: every selected winner is a surviving scored row of its period
group that no other surviving row of the same `period_end` strictly beats
under the descending key order `(period_end_dt,
is_preferred_consolidated, match_score, has_currency, abs_numeric)`; and
the spec scenario (two `NetSalesIFRS` facts for 2024-03-31, consolidated
1000 and non-consolidated 900, a weight-4.0 exact Revenue rule) resolves
to exactly one PL row for 2024-03-31 carrying value 1000. -/
theorem c1_ranking_and_scenario :
    (∀ (facts : List NFact) (rule : CanonicalRule) (pf : CanonicalPeriodFilter)
       (cons : Option Bool) (w : SRow), w ∈ matchRule facts rule pf cons →
       w ∈ scoredRows facts rule pf cons ∧
         ∀ x ∈ scoredRows facts rule pf cons,
           x.f.period_end = w.f.period_end → ¬ rowBetter x w) ∧
    resolveCanonicalLong (normalizeFacts [rawC1a, rawC1b]) [revenueRuleC1] .PL
        defaultPeriodFilter none =
      [⟨"Revenue", "PL", "2024-03-31", some "2023-04-01", none, .num (fl 1000), none,
        some true, none, none, some "NetSalesIFRS", none, none, fl 4⟩] :=
  ⟨fun _ _ _ _ _ hw => mem_matchRule hw, by decide⟩

/-- Witness for C1's ranking part at the scenario input: the consolidated
row is the selected winner and neither surviving row beats it. -/
theorem c1_witness :
    (c1W ∈ matchRule (normalizeFacts [rawC1a, rawC1b]) revenueRuleC1 defaultPeriodFilter none) ∧
      (c1W ∈ scoredRows (normalizeFacts [rawC1a, rawC1b]) revenueRuleC1 defaultPeriodFilter none ∧
        ∀ x ∈ scoredRows (normalizeFacts [rawC1a, rawC1b]) revenueRuleC1 defaultPeriodFilter none,
          x.f.period_end = c1W.f.period_end → ¬ rowBetter x c1W) :=
  ⟨by decide,
   c1_ranking_and_scenario.1 (normalizeFacts [rawC1a, rawC1b]) revenueRuleC1
     defaultPeriodFilter none c1W (by decide)⟩

/-! ## Claim C3: the TotalEquity exclusion -/

/-- C3 counterexample: under the default `TotalEquity` rule, a fact whose
`Label` is exactly "Liabilities and Net Assets" (element
`NetAssetsTotal`, which matches the `NetAssets` regex but not the
camel-case guard) IS selected as TotalEquity — the spaced label alone
does not trigger the exclusion. -/
theorem c3_counterexample :
    (resolveCanonicalLong (normalizeFacts [rawC3]) [totalEquityRule] .BS
        defaultPeriodFilter none).map (fun r => (r.canonical_key, r.label, r.value)) =
      [("TotalEquity", some "Liabilities and Net Assets", PVal.num (fl 500))] := by
  decide

/-- C3 as amended: for the canonical key `TotalEquity`, a fact whose
Element or Label contains the camel-case string
`"LiabilitiesAndNetAssets"` is forced to score 0 regardless of matcher
weights and never appears in the rule's output; the spaced label
"Liabilities and Net Assets" is only excluded when the camel-case string
also occurs in Element or Label. -/
theorem c3_total_equity_guard :
    (∀ (rule : CanonicalRule) (f : NFact), rule.canonical_key = "TotalEquity" →
       hitsEquityGuard f = true → scoreRow rule f = fl 0) ∧
    (∀ (facts : List NFact) (rule : CanonicalRule) (pf : CanonicalPeriodFilter)
       (cons : Option Bool) (w : SRow), rule.canonical_key = "TotalEquity" →
       w ∈ matchRule facts rule pf cons → hitsEquityGuard w.f = false) := by
  constructor
  · exact fun rule f h1 h2 => scoreRow_guard_zero h1 h2
  · intro facts rule pf cons w h1 hw
    rcases mem_scoredRows (mem_matchRule hw).1 with ⟨_, hscore, hpos⟩
    cases hguard : hitsEquityGuard w.f
    · rfl
    · rw [hscore, scoreRow_guard_zero h1 hguard] at hpos
      exact absurd hpos (by decide)

/-- Witness for C3's guard at a concrete input: a fact whose element is
literally `LiabilitiesAndNetAssets` scores 0 under the default
TotalEquity rule. -/
theorem c3_witness :
    (totalEquityRule.canonical_key = "TotalEquity" ∧
      hitsEquityGuard ⟨none, some "LiabilitiesAndNetAssets", none, none, none, none, none,
        some "instant", none, "2024-03-31", ⟨2024, 3, 31⟩, some (fl 500), none, none,
        false, some (fl 500), true⟩ = true) ∧
    scoreRow totalEquityRule ⟨none, some "LiabilitiesAndNetAssets", none, none, none, none,
      none, some "instant", none, "2024-03-31", ⟨2024, 3, 31⟩, some (fl 500), none, none,
      false, some (fl 500), true⟩ = fl 0 :=
  ⟨⟨rfl, by decide⟩, c3_total_equity_guard.1 totalEquityRule _ rfl (by decide)⟩

/-! ## Claim C2: at most one winner per (canonical_key, period_end) -/

theorem groupKeys_nodup (rows : List SRow) : (groupKeys rows).Nodup := by
  unfold groupKeys
  exact ((sSort_perm strLt _).nodup_iff).mpr (List.nodup_dedup _)

theorem pairwise_filterMap_tag {α β : Type _} {keys : List α} {F : α → Option β}
    (tag : β → α) (hkeys : keys.Pairwise (fun a b => a ≠ b))
    (htag : ∀ k r, F k = some r → tag r = k) :
    (keys.filterMap F).Pairwise (fun r s => tag r ≠ tag s) := by
  induction keys with
  | nil => exact List.Pairwise.nil
  | cons k ks ih =>
    rcases List.pairwise_cons.mp hkeys with ⟨hk, hks⟩
    rw [List.filterMap_cons]
    cases hF : F k with
    | none => exact ih hks
    | some r =>
      refine List.pairwise_cons.mpr ⟨?_, ih hks⟩
      intro s hs
      rcases List.mem_filterMap.mp hs with ⟨kk, hkk, hF2⟩
      rw [htag k r hF, htag kk s hF2]
      exact hk kk hkk

theorem pairwise_flatMap {α β : Type _} {l : List α} {F : α → List β} {P : β → β → Prop}
    (h1 : ∀ x ∈ l, (F x).Pairwise P)
    (h2 : l.Pairwise (fun x y => ∀ a ∈ F x, ∀ b ∈ F y, P a b)) :
    (l.flatMap F).Pairwise P := by
  induction l with
  | nil => exact .nil
  | cons x xs ih =>
    rw [List.flatMap_cons]
    rcases List.pairwise_cons.mp h2 with ⟨hx, hxs⟩
    refine List.pairwise_append.mpr
      ⟨h1 x (.head _), ih (fun y hy => h1 y (.tail _ hy)) hxs, ?_⟩
    intro a ha b hb
    rcases List.mem_flatMap.mp hb with ⟨y, hy, hby⟩
    exact hx y hy a ha b hby

theorem matchRule_pairwise_pe (facts : List NFact) (rule : CanonicalRule)
    (pf : CanonicalPeriodFilter) (cons : Option Bool) :
    (matchRule facts rule pf cons).Pairwise
      (fun a b => a.f.period_end ≠ b.f.period_end) := by
  unfold matchRule
  dsimp only
  exact pairwise_filterMap_tag (fun w => w.f.period_end) (groupKeys_nodup _)
    (fun k w hF => of_decide_eq_true (List.mem_filter.mp (bestOf_mem hF).1).2)

/-- C2 as amended: for every facts table, filter arguments, and rule list
whose canonical keys are pairwise distinct once the list is restricted to
the requested statement type (as holds for every mapping produced by
`resolve_mapping`, whose merge is keyed by `canonical_key`), no two rows
of the long-form output share the same `(canonical_key, period_end)`
pair. -/
theorem c2_unique_winner :
    ∀ (facts : List NFact) (rules : List CanonicalRule) (st : StatementType)
      (pf : CanonicalPeriodFilter) (cons : Option Bool),
      (rules.filter (fun r => r.statement = st)).Pairwise
        (fun r1 r2 => r1.canonical_key ≠ r2.canonical_key) →
      (resolveCanonicalLong facts rules st pf cons).Pairwise
        (fun a b => ¬ (a.canonical_key = b.canonical_key ∧ a.period_end = b.period_end)) := by
  intro facts rules st pf cons hr
  unfold resolveCanonicalLong
  apply pairwise_flatMap
  · intro r _
    refine List.Pairwise.map (toLongRow r) ?_ (matchRule_pairwise_pe facts r pf cons)
    intro a b hab hcon
    exact hab hcon.2
  · refine List.Pairwise.imp ?_ hr
    intro r1 r2 h12 a ha b hb hcon
    rcases List.mem_map.mp ha with ⟨w1, _, rfl⟩
    rcases List.mem_map.mp hb with ⟨w2, _, rfl⟩
    exact h12 hcon.1

/-- C2 counterexample: with a mapping holding two items of the same
canonical key (which `MappingItem.from_dict` preserves), the long-form
output carries two rows with the same `(canonical_key, period_end)`
pair. -/
theorem c2_counterexample :
    (resolveCanonicalLong (normalizeFacts [rawC1a]) [revenueRuleC1, revenueRuleC2] .PL
        defaultPeriodFilter none).map (fun r => (r.canonical_key, r.period_end)) =
      [("Revenue", "2024-03-31"), ("Revenue", "2024-03-31")] := by
  decide

/-- Witness for C2 at a concrete rule list whose PL-restricted keys are
distinct. -/
theorem c2_witness :
    (([revenueRuleC1, c7Rule].filter
        (fun r => r.statement = StatementType.PL)).Pairwise
      (fun r1 r2 => r1.canonical_key ≠ r2.canonical_key)) ∧
      (resolveCanonicalLong (normalizeFacts [rawC1a, rawC1b]) [revenueRuleC1, c7Rule] .PL
          defaultPeriodFilter none).Pairwise
        (fun a b => ¬ (a.canonical_key = b.canonical_key ∧ a.period_end = b.period_end)) :=
  ⟨by decide,
   c2_unique_winner (normalizeFacts [rawC1a, rawC1b]) [revenueRuleC1, c7Rule] .PL
     defaultPeriodFilter none (by decide)⟩

/-! ## Claim C8: determinism and input-order independence -/

theorem perm_any_eq {α : Type _} {l1 l2 : List α} (h : l1.Perm l2) (p : α → Bool) :
    l1.any p = l2.any p := by
  cases ha : l2.any p
  · simp only [List.any_eq_false] at ha ⊢
    exact fun x hx => ha x (h.mem_iff.mp hx)
  · simp only [List.any_eq_true] at ha ⊢
    rcases ha with ⟨x, hx, hpx⟩
    exact ⟨x, h.mem_iff.mpr hx, hpx⟩

theorem stageDim_perm (incl : Bool) {l1 l2 : List NFact} (h : l1.Perm l2) :
    (stageDim incl l1).Perm (stageDim incl l2) := by
  unfold stageDim
  split
  · exact h
  · exact h.filter _

theorem stagePt_perm (pt : Option String) {l1 l2 : List NFact} (h : l1.Perm l2) :
    (stagePt pt l1).Perm (stagePt pt l2) := by
  unfold stagePt
  split
  · exact h
  · exact h.filter _

theorem stagePrefer_perm (pf : CanonicalPeriodFilter) {l1 l2 : List NFact} (h : l1.Perm l2) :
    (stagePrefer pf l1).Perm (stagePrefer pf l2) := by
  unfold stagePrefer
  rw [perm_any_eq h (fun f => decide (f.period_type = some "duration"))]
  split
  · split
    · exact h.filter _
    · exact h
  · exact h

theorem stageMin_perm (pf : CanonicalPeriodFilter) {l1 l2 : List NFact} (h : l1.Perm l2) :
    (stageMin pf l1).Perm (stageMin pf l2) := by
  unfold stageMin
  split
  · exact h.filter _
  · exact h

theorem filterFacts_perm (pt : Option String) (pf : CanonicalPeriodFilter) (incl : Bool)
    {l1 l2 : List NFact} (h : l1.Perm l2) :
    (filterFacts l1 pt pf incl).Perm (filterFacts l2 pt pf incl) :=
  stageMin_perm pf (stagePrefer_perm pf (stagePt_perm pt (stageDim_perm incl h)))

theorem scoredRows_perm {l1 l2 : List NFact} (rule : CanonicalRule)
    (pf : CanonicalPeriodFilter) (cons : Option Bool) (h : l1.Perm l2) :
    (scoredRows l1 rule pf cons).Perm (scoredRows l2 rule pf cons) := by
  rcases cons with _ | b <;> simp only [scoredRows]
  · exact ((filterFacts_perm _ _ _ h).map _).filter _
  · exact (((filterFacts_perm _ _ _ h).filter _).map _).filter _

theorem groupKeys_eq {s1 s2 : List SRow} (h : s1.Perm s2) : groupKeys s1 = groupKeys s2 := by
  unfold groupKeys
  haveI : IsAntisymm String strLt := ⟨fun a b h1 h2 => absurd h2 (swStr.lt_asymm h1)⟩
  have hperm : ((s1.map (fun sr => sr.f.period_end)).dedup).Perm
      ((s2.map (fun sr => sr.f.period_end)).dedup) := (h.map _).dedup
  have hstrict : ∀ d : List String, d.Nodup → (sSort strLt d).Pairwise strLt := by
    intro d hnd
    have hnd2 : (sSort strLt d).Nodup := ((sSort_perm strLt d).nodup_iff).mpr hnd
    refine ((sSort_sorted swStr d).and hnd2).imp ?_
    rintro a b ⟨hnb, hne⟩
    rcases swStr.trichot a b with g | g | g
    · exact g
    · exact absurd g hnb
    · exact absurd g hne
  exact List.eq_of_perm_of_sorted
    ((sSort_perm strLt _).trans (hperm.trans (sSort_perm strLt _).symm))
    (hstrict _ (List.nodup_dedup _)) (hstrict _ (List.nodup_dedup _))

theorem matchRule_perm_eq {l1 l2 : List NFact} {rule : CanonicalRule}
    {pf : CanonicalPeriodFilter} {cons : Option Bool} (h : l1.Perm l2)
    (hnt : ∀ a ∈ scoredRows l1 rule pf cons, ∀ b ∈ scoredRows l1 rule pf cons,
      a.f.period_end = b.f.period_end → rowTie a b → a = b) :
    matchRule l1 rule pf cons = matchRule l2 rule pf cons := by
  unfold matchRule
  dsimp only
  have hs := scoredRows_perm rule pf cons h
  rw [groupKeys_eq hs]
  apply List.filterMap_congr
  intro k _
  apply sSort_head_perm swRow (hs.filter _)
  intro a ha b hb htie
  have ha2 := List.mem_filter.mp ha
  have hb2 := List.mem_filter.mp hb
  exact hnt a ha2.1 b hb2.1
    ((of_decide_eq_true ha2.2).trans (of_decide_eq_true hb2.2).symm) htie

theorem flatMap_congr {α β : Type _} {l : List α} {f g : α → List β}
    (h : ∀ x ∈ l, f x = g x) : l.flatMap f = l.flatMap g := by
  induction l with
  | nil => rfl
  | cons x xs ih =>
    rw [List.flatMap_cons, List.flatMap_cons, h x (.head _),
      ih (fun y hy => h y (.tail _ hy))]

/-- C8 as amended: repeated calls on fixed inputs return identical
output, and permuting the input rows leaves the output unchanged provided
no two distinct surviving rows of the same period group tie on all five
sort keys; a full five-key tie is broken by input order, so only then can
a permutation change the selected row. -/
theorem c8_determinism_perm :
    (∀ (facts : List NFact) (rules : List CanonicalRule) (st : StatementType)
       (pf : CanonicalPeriodFilter) (cons : Option Bool),
       resolveCanonicalLong facts rules st pf cons =
         resolveCanonicalLong facts rules st pf cons) ∧
    (∀ (facts1 facts2 : List NFact) (rules : List CanonicalRule) (st : StatementType)
       (pf : CanonicalPeriodFilter) (cons : Option Bool),
       facts1.Perm facts2 →
       (∀ rule ∈ rules, ∀ a ∈ scoredRows facts1 rule pf cons,
          ∀ b ∈ scoredRows facts1 rule pf cons,
          a.f.period_end = b.f.period_end → rowTie a b → a = b) →
       resolveCanonicalLong facts1 rules st pf cons =
         resolveCanonicalLong facts2 rules st pf cons) := by
  refine ⟨fun _ _ _ _ _ => rfl, ?_⟩
  intro facts1 facts2 rules st pf cons h hnt
  unfold resolveCanonicalLong
  apply flatMap_congr
  intro r hr
  rw [matchRule_perm_eq h (hnt r ((List.filter_sublist rules).mem hr))]

/-- C8 counterexample: permuting two rows that tie on all five sort keys
(period, consolidation, score, currency presence, absolute magnitude)
changes the resolver output — the tie is broken by input order. -/
theorem c8_counterexample :
    resolveCanonicalLong (normalizeFacts [rawC8a, rawC8b]) [revenueRuleC1] .PL
        defaultPeriodFilter none ≠
      resolveCanonicalLong (normalizeFacts [rawC8b, rawC8a]) [revenueRuleC1] .PL
        defaultPeriodFilter none := by
  decide

/-- Witness for C8 at a concrete tie-free input: swapping the 1000/900
scenario facts leaves the output unchanged. -/
theorem c8_witness :
    ((normalizeFacts [rawC1a, rawC1b]).Perm (normalizeFacts [rawC1b, rawC1a])) ∧
      (∀ rule ∈ [revenueRuleC1],
        ∀ a ∈ scoredRows (normalizeFacts [rawC1a, rawC1b]) rule defaultPeriodFilter none,
        ∀ b ∈ scoredRows (normalizeFacts [rawC1a, rawC1b]) rule defaultPeriodFilter none,
        a.f.period_end = b.f.period_end → rowTie a b → a = b) ∧
      resolveCanonicalLong (normalizeFacts [rawC1a, rawC1b]) [revenueRuleC1] .PL
          defaultPeriodFilter none =
        resolveCanonicalLong (normalizeFacts [rawC1b, rawC1a]) [revenueRuleC1] .PL
          defaultPeriodFilter none :=
  ⟨by decide, by decide,
   c8_determinism_perm.2 (normalizeFacts [rawC1a, rawC1b]) (normalizeFacts [rawC1b, rawC1a])
     [revenueRuleC1] .PL defaultPeriodFilter none (by decide) (by decide)⟩

theorem portPreferred_subset (g : List SRow) : portPreferred g ⊆ g := by
  unfold portPreferred
  split
  · exact fun x hx => (List.mem_filter.mp hx).1
  · exact fun _ hx => hx

theorem portPreferred_ne_nil {g : List SRow} (h : g ≠ []) : portPreferred g ≠ [] := by
  unfold portPreferred
  split
  · rename_i hany
    rcases List.any_eq_true.mp hany with ⟨x, hx, hpx⟩
    intro hnil
    have hmem : x ∈ g.filter (fun sr => isPrefCons sr.f) := List.mem_filter.mpr ⟨hx, hpx⟩
    rw [hnil] at hmem
    cases hmem
  · exact h

theorem mem_groupKeys {scored : List SRow} {k : String} (h : k ∈ groupKeys scored) :
    ∃ sr ∈ scored, sr.f.period_end = k := by
  unfold groupKeys at h
  rcases List.mem_map.mp (List.mem_dedup.mp ((sSort_perm strLt _).mem_iff.mp h)) with
    ⟨sr, hsr, hpe⟩
  exact ⟨sr, hsr, hpe⟩

/-- C4 as amended: for every sum-mode portfolio rule, each output row
carries exactly the numeric sum of its period group (consolidated subset
preferred when one exists), its representative is a ranking maximum of
that subset, and a period contributes a row precisely when its summed
total is non-zero (the `skipna` float sum is never NaN) — a negative
total does contribute a row; and the spec scenario (two matching rows
worth 30 and 70) yields a timeseries value of 100 for that period. -/
theorem c4_sum_mode :
    (∀ (facts : List NFact) (rule : PortfolioRule) (pf : CanonicalPeriodFilter)
       (cons : Option Bool), rule.aggregate_mode = some "sum" →
       (∀ r ∈ matchPortfolioRule facts rule pf cons,
          ¬ (portTotal (portPreferred (portGroup (portScoredRows facts rule pf cons)
                r.f.period_end))).isZero ∧
          r.value = .num (portTotal (portPreferred (portGroup
                (portScoredRows facts rule pf cons) r.f.period_end))) ∧
          ∃ w ∈ portPreferred (portGroup (portScoredRows facts rule pf cons) r.f.period_end),
            r.f = w.f ∧ r.match_score = w.match_score ∧
            ∀ x ∈ portPreferred (portGroup (portScoredRows facts rule pf cons) r.f.period_end),
              ¬ rowBetter x w) ∧
       (∀ k ∈ groupKeys (portScoredRows facts rule pf cons),
          ¬ (portTotal (portPreferred (portGroup (portScoredRows facts rule pf cons) k))).isZero →
          ∃ r ∈ matchPortfolioRule facts rule pf cons, r.f.period_end = k ∧
            r.value = .num (portTotal (portPreferred (portGroup
              (portScoredRows facts rule pf cons) k))))) ∧
    getPortfolioTimeseriesCell (normalizeFacts [rawC4a, rawC4b]) none none
      "2024-03-31" "EquitySecurities" = some (PVal.num (fl 100)) := by
  constructor
  · intro facts rule pf cons hsum
    constructor
    · intro r hr
      unfold matchPortfolioRule at hr
      dsimp only at hr
      rw [if_pos hsum] at hr
      rcases List.mem_filterMap.mp hr with ⟨k, hk, hF⟩
      split at hF
      · cases hF
      · rename_i htz
        rcases Option.map_eq_some'.mp hF with ⟨w, hbw, hrw⟩
        rcases bestOf_mem hbw with ⟨hwmem, hwmax⟩
        have hwg := portPreferred_subset _ hwmem
        have hpe : w.f.period_end = k :=
          of_decide_eq_true (List.mem_filter.mp hwg).2
        have hrf : r.f = w.f := by rw [← hrw]
        have hrpe : r.f.period_end = k := by rw [hrf, hpe]
        rw [hrpe]
        refine ⟨htz, by rw [← hrw], w, hwmem, hrf, by rw [← hrw], hwmax⟩
    · intro k hk htz
      have hgne : portGroup (portScoredRows facts rule pf cons) k ≠ [] := by
        rcases mem_groupKeys hk with ⟨sr, hsr, hpe⟩
        intro hnil
        have hmem : sr ∈ portGroup (portScoredRows facts rule pf cons) k :=
          List.mem_filter.mpr ⟨hsr, by simp [hpe]⟩
        rw [hnil] at hmem
        cases hmem
      rcases bestOf_isSome (portPreferred_ne_nil hgne) with ⟨w, hbw⟩
      have hpe : w.f.period_end = k :=
        of_decide_eq_true (List.mem_filter.mp (portPreferred_subset _ (bestOf_mem hbw).1)).2
      refine ⟨⟨w.f, w.match_score, .num (portTotal (portPreferred
        (portGroup (portScoredRows facts rule pf cons) k)))⟩, ?_, hpe, rfl⟩
      unfold matchPortfolioRule
      dsimp only
      rw [if_pos hsum]
      refine List.mem_filterMap.mpr ⟨k, hk, ?_⟩
      rw [if_neg htz, hbw]
      rfl
  · decide

/-- C4 counterexample: a period whose summed total is negative (30 and
-70) still contributes an output row valued -40, contradicting the
"total ≤ 0 contributes nothing" reading. -/
theorem c4_counterexample :
    (matchPortfolioRule (normalizeFacts [rawC4a, rawC4n]) equitySecuritiesRule
        portDefaultFilter none).map (fun r => (r.f.period_end, r.value)) =
      [("2024-03-31", PVal.num (fl (-40)))] := by
  decide

/-- Witness for C4's sum-mode characterization at the scenario input. -/
theorem c4_witness :
    (equitySecuritiesRule.aggregate_mode = some "sum") ∧
      (c4W ∈ matchPortfolioRule (normalizeFacts [rawC4a, rawC4b]) equitySecuritiesRule
        portDefaultFilter none) ∧
      (¬ (portTotal (portPreferred (portGroup
          (portScoredRows (normalizeFacts [rawC4a, rawC4b]) equitySecuritiesRule
            portDefaultFilter none) c4W.f.period_end))).isZero ∧
        c4W.value = .num (portTotal (portPreferred (portGroup
          (portScoredRows (normalizeFacts [rawC4a, rawC4b]) equitySecuritiesRule
            portDefaultFilter none) c4W.f.period_end))) ∧
        ∃ w ∈ portPreferred (portGroup
            (portScoredRows (normalizeFacts [rawC4a, rawC4b]) equitySecuritiesRule
              portDefaultFilter none) c4W.f.period_end),
          c4W.f = w.f ∧ c4W.match_score = w.match_score ∧
          ∀ x ∈ portPreferred (portGroup
              (portScoredRows (normalizeFacts [rawC4a, rawC4b]) equitySecuritiesRule
                portDefaultFilter none) c4W.f.period_end),
            ¬ rowBetter x w) :=
  ⟨rfl, by decide,
   (c4_sum_mode.1 (normalizeFacts [rawC4a, rawC4b]) equitySecuritiesRule
     portDefaultFilter none rfl).1 c4W (by decide)⟩

theorem rangeMapGetD {α : Type _} {n i : Nat} (h : i < n) (f : Nat → Option α) :
    ((List.range n).map f).getD i none = f i := by
  rw [List.getD_eq_getElem?_getD, List.getElem?_map, List.getElem?_range h]
  rfl

theorem constMapGetD {α β : Type _} (l : List α) (i : Nat) :
    (l.map (fun _ => (none : Option β))).getD i none = none := by
  rw [List.getD_eq_getElem?_getD, List.getElem?_map]
  cases l[i]? <;> rfl

/-- The reconciler's row update preserves the canonical key. -/
theorem reconcileBS_find_liab (T : WideTable) (tol : Flt) {aRow eRow : WideRow}
    (hne : T.rows.isEmpty = false) (hcols : T.cols.isEmpty = false)
    (ha : T.rows.find? (fun r => r.canonical_key = "TotalAssets") = some aRow)
    (he : T.rows.find? (fun r => r.canonical_key = "TotalEquity") = some eRow)
    {i : Nat} (hi : i < T.cols.length) :
    ∃ lr0,
      (reconRows1 T).find? (fun r => r.canonical_key = "TotalLiabilities") = some lr0 ∧
      ∃ lr2,
        (reconcileBS T tol).rows.find? (fun r => r.canonical_key = "TotalLiabilities") =
          some lr2 ∧
        lr2.cells.getD i none =
          reconUpd tol aRow eRow (some lr0) i (lr0.cells.getD i none) := by
  have hfind : ∃ lr0, (reconRows1 T).find?
      (fun r => r.canonical_key = "TotalLiabilities") = some lr0 := by
    unfold reconRows1
    by_cases hany : T.rows.any (fun r => decide (r.canonical_key = "TotalLiabilities")) = true
    · rw [if_pos hany]
      rcases List.any_eq_true.mp hany with ⟨x, hx, hpx⟩
      cases hf : T.rows.find? (fun r => r.canonical_key = "TotalLiabilities") with
      | none =>
        have := List.find?_eq_none.mp hf x hx
        exact absurd hpx this
      | some lr => exact ⟨lr, rfl⟩
    · rw [if_neg hany]
      refine ⟨liabNewRow T.cols, ?_⟩
      rw [List.find?_append]
      have hfn : T.rows.find? (fun r => decide (r.canonical_key = "TotalLiabilities")) = none := by
        rw [List.find?_eq_none]
        intro x hx hpx
        exact hany (List.any_eq_true.mpr ⟨x, hx, hpx⟩)
      rw [hfn]
      rfl
  rcases hfind with ⟨lr0, hlr0⟩
  refine ⟨lr0, hlr0, ?_⟩
  have hrec : (reconcileBS T tol).rows =
      (reconRows1 T).map (fun r =>
        if r.canonical_key = "TotalLiabilities" then
          ⟨r.canonical_key, r.label, r.statement,
           (List.range T.cols.length).map (fun j => reconUpd tol aRow eRow
             ((reconRows1 T).find? (fun s => s.canonical_key = "TotalLiabilities")) j
             (r.cells.getD j none))⟩
        else r) := by
    unfold reconcileBS
    rw [if_neg (by simp [hne]), if_neg (by simp [hcols]), ha, he]
  rw [hrec, hlr0]
  rw [List.find?_map]
  have hpg : ((fun r : WideRow => decide (r.canonical_key = "TotalLiabilities")) ∘
      (fun r : WideRow =>
        if r.canonical_key = "TotalLiabilities" then
          (⟨r.canonical_key, r.label, r.statement,
           (List.range T.cols.length).map (fun j => reconUpd tol aRow eRow (some lr0) j
             (r.cells.getD j none))⟩ : WideRow)
        else r)) =
      (fun r : WideRow => decide (r.canonical_key = "TotalLiabilities")) := by
    funext r
    simp only [Function.comp_apply]
    by_cases hr : r.canonical_key = "TotalLiabilities"
    · rw [if_pos hr]
    · rw [if_neg hr]
  rw [hpg, hlr0]
  have hkey : lr0.canonical_key = "TotalLiabilities" := by
    have := List.find?_some hlr0
    exact of_decide_eq_true this
  refine ⟨_, rfl, ?_⟩
  dsimp only
  rw [if_pos hkey]
  exact rangeMapGetD hi _

/-- C5: per period column with numeric assets and equity, a missing
liabilities cell (or a missing liabilities row altogether) receives
`assets - equity`; a present numeric liabilities cell is overwritten with
the derived value exactly when assets are non-zero and
`|assets - (liabilities + equity)| / |assets|` exceeds the default 3%
tolerance, and is left unchanged otherwise; columns whose assets or
equity are non-numeric leave the liabilities cell untouched; and the spec
scenario overwrites 55 to 60 (5% gap) while leaving 58 unchanged (2%
gap). -/
theorem c5_reconcile :
    (∀ (T : WideTable) (i : Nat) (aRow eRow : WideRow) (ta te : Flt),
       i < T.cols.length →
       T.rows.find? (fun r => r.canonical_key = "TotalAssets") = some aRow →
       T.rows.find? (fun r => r.canonical_key = "TotalEquity") = some eRow →
       cellNum (aRow.cells.getD i none) = some ta →
       cellNum (eRow.cells.getD i none) = some te →
       ((T.rows.find? (fun r => r.canonical_key = "TotalLiabilities") = none →
          ∃ lr2, (reconcileBS T bsTolerance).rows.find?
              (fun r => r.canonical_key = "TotalLiabilities") = some lr2 ∧
            lr2.cells.getD i none = some (.num (ta.sub te))) ∧
        (∀ lr, T.rows.find? (fun r => r.canonical_key = "TotalLiabilities") = some lr →
          ∃ lr2, (reconcileBS T bsTolerance).rows.find?
              (fun r => r.canonical_key = "TotalLiabilities") = some lr2 ∧
            lr2.cells.getD i none =
              (match cellNum (lr.cells.getD i none) with
               | none => some (.num (ta.sub te))
               | some tl =>
                 if ¬ ta.isZero ∧
                     Flt.lt bsTolerance (((ta.sub (tl.add te)).abs).div ta.abs) then
                   some (.num (ta.sub te))
                 else lr.cells.getD i none)))) ∧
    (∀ (T : WideTable) (i : Nat) (aRow eRow lr : WideRow),
       i < T.cols.length →
       T.rows.find? (fun r => r.canonical_key = "TotalAssets") = some aRow →
       T.rows.find? (fun r => r.canonical_key = "TotalEquity") = some eRow →
       T.rows.find? (fun r => r.canonical_key = "TotalLiabilities") = some lr →
       (cellNum (aRow.cells.getD i none) = none ∨ cellNum (eRow.cells.getD i none) = none) →
       ∃ lr2, (reconcileBS T bsTolerance).rows.find?
           (fun r => r.canonical_key = "TotalLiabilities") = some lr2 ∧
         lr2.cells.getD i none = lr.cells.getD i none) ∧
    ((reconcileBS bsT1 bsTolerance).rows.find?
        (fun r => r.canonical_key = "TotalLiabilities")).map (fun r => r.cells) =
      some [some (.num (fl 60))] ∧
    ((reconcileBS bsT2 bsTolerance).rows.find?
        (fun r => r.canonical_key = "TotalLiabilities")).map (fun r => r.cells) =
      some [some (.num (fl 58))] := by
  have hnonempty : ∀ {T : WideTable} {p : WideRow → Bool} {a : WideRow},
      T.rows.find? p = some a → T.rows.isEmpty = false := by
    intro T p a h
    cases hr : T.rows with
    | nil => rw [hr] at h; cases h
    | cons x xs => rfl
  have hcolsne : ∀ {T : WideTable} {i : Nat}, i < T.cols.length → T.cols.isEmpty = false := by
    intro T i h
    cases hc : T.cols with
    | nil => rw [hc] at h; exact absurd h (by simp)
    | cons x xs => rfl
  refine ⟨?_, ?_, by decide, by decide⟩
  · intro T i aRow eRow ta te hi ha he hta hte
    rcases reconcileBS_find_liab T bsTolerance (hnonempty ha) (hcolsne hi) ha he hi with
      ⟨lr0, hlr0, lr2, hlr2, hcell⟩
    constructor
    · intro hnol
      have hany : T.rows.any (fun r => decide (r.canonical_key = "TotalLiabilities")) = false := by
        rw [List.any_eq_false]
        intro x hx
        simpa using List.find?_eq_none.mp hnol x hx
      have hrows1 : reconRows1 T = T.rows ++ [liabNewRow T.cols] := by
        unfold reconRows1
        rw [if_neg (by simp [hany])]
      have hlr0eq : lr0 = liabNewRow T.cols := by
        rw [hrows1, List.find?_append, hnol] at hlr0
        simpa [liabNewRow] using hlr0.symm
      refine ⟨lr2, hlr2, ?_⟩
      rw [hcell, hlr0eq]
      have hnewcell : (liabNewRow T.cols).cells.getD i none = none := by
        unfold liabNewRow
        exact constMapGetD T.cols i
      unfold reconUpd
      rw [hta, hte]
      simp only [Option.map_some', Option.getD_some]
      have hc : cellNum ((liabNewRow T.cols).cells.getD i none) = none := by
        rw [hnewcell]
        rfl
      rw [hc]
    · intro lr hlr
      have hplr := List.find?_some hlr
      have hany : T.rows.any (fun r => decide (r.canonical_key = "TotalLiabilities")) = true :=
        List.any_eq_true.mpr ⟨lr, List.mem_of_find?_eq_some hlr, hplr⟩
      have hrows1 : reconRows1 T = T.rows := by
        unfold reconRows1
        rw [if_pos hany]
      have hlr0eq : lr0 = lr := by
        rw [hrows1, hlr] at hlr0
        exact (Option.some.inj hlr0).symm
      refine ⟨lr2, hlr2, ?_⟩
      rw [hcell, hlr0eq]
      unfold reconUpd
      rw [hta, hte]
      simp only [Option.map_some', Option.getD_some]
  · intro T i aRow eRow lr hi ha he hlr hmiss
    rcases reconcileBS_find_liab T bsTolerance (hnonempty ha) (hcolsne hi) ha he hi with
      ⟨lr0, hlr0, lr2, hlr2, hcell⟩
    have hplr := List.find?_some hlr
    have hany : T.rows.any (fun r => decide (r.canonical_key = "TotalLiabilities")) = true :=
      List.any_eq_true.mpr ⟨lr, List.mem_of_find?_eq_some hlr, hplr⟩
    have hrows1 : reconRows1 T = T.rows := by
      unfold reconRows1
      rw [if_pos hany]
    have hlr0eq : lr0 = lr := by
      rw [hrows1, hlr] at hlr0
      exact (Option.some.inj hlr0).symm
    refine ⟨lr2, hlr2, ?_⟩
    rw [hcell, hlr0eq]
    unfold reconUpd
    rcases hmiss with h | h
    · rw [h]
    · cases h2 : cellNum (aRow.cells.getD i none) with
      | none => rfl
      | some ta => rw [h]

/-- Witness for C5: on the 100/40/55 table the reconciled liabilities cell
of the first period column is the derived 60. -/
theorem c5_witness :
    0 < bsT1.cols.length ∧
    ∃ lr2, (reconcileBS bsT1 bsTolerance).rows.find?
        (fun r => r.canonical_key = "TotalLiabilities") = some lr2 ∧
      lr2.cells.getD 0 none = some (.num (fl 60)) := by
  refine ⟨by decide, ?_⟩
  rcases (c5_reconcile.1 bsT1 0
      ⟨"TotalAssets", some "Total Assets", "BS", [some (.num (fl 100))]⟩
      ⟨"TotalEquity", some "Total Equity", "BS", [some (.num (fl 40))]⟩
      (fl 100) (fl 40) (by decide) (by decide) (by decide) (by decide) (by decide)).2
      ⟨"TotalLiabilities", some "Total Liabilities", "BS", [some (.num (fl 55))]⟩
      (by decide) with ⟨lr2, h1, h2⟩
  refine ⟨lr2, h1, ?_⟩
  rw [h2]
  decide

theorem find_map_replace_ne (l : List MappingItem) (x : MappingItem) (k : String)
    (hxk : x.canonical_key ≠ k) :
    (l.map (fun y => if y.canonical_key = x.canonical_key then x else y)).find?
      (fun y => y.canonical_key = k) = l.find? (fun y => y.canonical_key = k) := by
  induction l with
  | nil => rfl
  | cons a l ih =>
    rw [List.map_cons]
    by_cases ha : a.canonical_key = x.canonical_key
    · rw [if_pos ha]
      rw [List.find?_cons_of_neg _ (by simp [hxk])]
      rw [List.find?_cons_of_neg _ (by simp [ha ▸ hxk])]
      exact ih
    · rw [if_neg ha]
      by_cases hak : a.canonical_key = k
      · rw [List.find?_cons_of_pos _ (by simp [hak]), List.find?_cons_of_pos _ (by simp [hak])]
      · rw [List.find?_cons_of_neg _ (by simp [hak]), List.find?_cons_of_neg _ (by simp [hak])]
        exact ih

theorem find_map_replace_eq (l : List MappingItem) (x : MappingItem)
    (h : l.any (fun y => y.canonical_key = x.canonical_key) = true) :
    (l.map (fun y => if y.canonical_key = x.canonical_key then x else y)).find?
      (fun y => y.canonical_key = x.canonical_key) = some x := by
  induction l with
  | nil => cases h
  | cons a l ih =>
    rw [List.map_cons]
    by_cases ha : a.canonical_key = x.canonical_key
    · rw [if_pos ha]
      exact List.find?_cons_of_pos _ (by simp)
    · rw [if_neg ha]
      rw [List.find?_cons_of_neg _ (by simp [ha])]
      apply ih
      simpa [ha] using h

theorem dictInsert_findKey (l : List MappingItem) (x : MappingItem) (k : String) :
    findKey (dictInsert l x) k =
      if x.canonical_key = k then some x else findKey l k := by
  unfold dictInsert findKey
  by_cases hany : l.any (fun y => y.canonical_key = x.canonical_key) = true
  · rw [if_pos hany]
    by_cases hxk : x.canonical_key = k
    · rw [if_pos hxk]
      subst hxk
      exact find_map_replace_eq l x hany
    · rw [if_neg hxk]
      exact find_map_replace_ne l x k hxk
  · rw [if_neg hany]
    rw [List.find?_append]
    by_cases hxk : x.canonical_key = k
    · rw [if_pos hxk]
      have hl : l.find? (fun y => y.canonical_key = k) = none := by
        rw [List.find?_eq_none]
        intro y hy
        simp only [decide_eq_true_eq]
        intro hyk
        exact hany (List.any_eq_true.mpr ⟨y, hy, by simp [hyk, hxk]⟩)
      rw [hl]
      simp [List.find?, hxk]
    · rw [if_neg hxk]
      have hx : List.find? (fun y => y.canonical_key = k) [x] = none := by
        simp [List.find?, hxk]
      rw [hx, Option.or_none]

theorem foldl_dictInsert_findKey (l : List MappingItem) (init : List MappingItem)
    (k : String) :
    findKey (l.foldl dictInsert init) k = (lastWith l k).or (findKey init k) := by
  induction l generalizing init with
  | nil => simp [lastWith, Option.none_or]
  | cons a l ih =>
    rw [List.foldl_cons, ih, dictInsert_findKey]
    unfold lastWith
    rw [List.reverse_cons, List.find?_append, Option.or_assoc]
    by_cases hak : a.canonical_key = k
    · rw [if_pos hak]
      have hx : List.find? (fun y => y.canonical_key = k) [a] = some a := by
        simp [List.find?, hak]
      rw [hx]
      rfl
    · rw [if_neg hak]
      have hx : List.find? (fun y => y.canonical_key = k) [a] = none := by
        simp [List.find?, hak]
      rw [hx, Option.none_or]

theorem foldl_guard_filter (l init : List MappingItem) :
    l.foldl (fun acc it => if it.canonical_key ≠ "" then dictInsert acc it else acc) init =
      (l.filter (fun it => it.canonical_key ≠ "")).foldl dictInsert init := by
  induction l generalizing init with
  | nil => rfl
  | cons a l ih =>
    rw [List.foldl_cons, List.filter_cons]
    by_cases ha : a.canonical_key ≠ ""
    · rw [if_pos ha, if_pos (by simpa using ha), List.foldl_cons]
      exact ih _
    · rw [if_neg ha, if_neg (by simpa using ha)]
      exact ih _

theorem find_filter_ne (l : List MappingItem) (k : String) (hk : k ≠ "") :
    (l.filter (fun it => it.canonical_key ≠ "")).find? (fun y => y.canonical_key = k) =
      l.find? (fun y => y.canonical_key = k) := by
  induction l with
  | nil => rfl
  | cons a l ih =>
    rw [List.filter_cons]
    by_cases ha : a.canonical_key = ""
    · rw [if_neg (by simp [ha])]
      rw [List.find?_cons_of_neg _ (by simp [ha]; exact fun h => hk h.symm)]
      exact ih
    · rw [if_pos (by simpa using ha)]
      by_cases hak : a.canonical_key = k
      · rw [List.find?_cons_of_pos _ (by simp [hak]), List.find?_cons_of_pos _ (by simp [hak])]
      · rw [List.find?_cons_of_neg _ (by simp [hak]), List.find?_cons_of_neg _ (by simp [hak])]
        exact ih

theorem mergeItems_findKey (base ov : List MappingItem) (k : String) :
    findKey (mergeItems base ov) k =
      (lastWith (ov.filter (fun it => it.canonical_key ≠ "")) k).or (lastWith base k) := by
  unfold mergeItems
  rw [foldl_guard_filter, foldl_dictInsert_findKey, foldl_dictInsert_findKey]
  have h0 : findKey ([] : List MappingItem) k = none := rfl
  rw [h0, Option.or_none]

theorem lastWith_filter_ne (l : List MappingItem) (k : String) (hk : k ≠ "") :
    lastWith (l.filter (fun it => it.canonical_key ≠ "")) k = lastWith l k := by
  unfold lastWith
  rw [← List.filter_reverse]
  exact find_filter_ne l.reverse k hk

/-- C6 counterexample: an item present only in the overlay but with an
empty `canonical_key` does not survive the merge — `merge_over` drops it,
contradicting "items present only in overlay survive". -/
theorem c6_counterexample :
    (⟨"", "PL", some "duration", []⟩ : MappingItem) ∈
      [(⟨"", "PL", some "duration", []⟩ : MappingItem)] ∧
    (⟨"", "PL", some "duration", []⟩ : MappingItem) ∉
      (MappingConfig.mergeOver ⟨1, [⟨"Revenue", "PL", none, []⟩]⟩
        (some ⟨1, [⟨"", "PL", some "duration", []⟩]⟩)).items ∧
    (MappingConfig.mergeOver ⟨1, [⟨"Revenue", "PL", none, []⟩]⟩
        (some ⟨1, [⟨"", "PL", some "duration", []⟩]⟩)).items =
      [⟨"Revenue", "PL", none, []⟩] := by decide

/-- C6 (corrected): `merge_over` with a `None` overlay returns the base
unchanged; the merge is keyed by `canonical_key`, the last same-keyed
overlay item fully replaces the base item (no field-level merge), base
items whose key the overlay does not carry survive, and
`merge(merge(base, A), B)` agrees with `merge(base, B)` at any key B
carries — all of this for non-empty keys: an overlay item with an empty
`canonical_key` is dropped (see the counterexample). -/
theorem c6_merge_over :
    (∀ cfg : MappingConfig, cfg.mergeOver none = cfg) ∧
    (∀ (base ov : MappingConfig) (k : String) (it : MappingItem), k ≠ "" →
       lastWith ov.items k = some it →
       findKey (base.mergeOver (some ov)).items k = some it) ∧
    (∀ (base ov : MappingConfig) (k : String), lastWith ov.items k = none →
       findKey (base.mergeOver (some ov)).items k = lastWith base.items k) ∧
    (∀ (base a b : MappingConfig) (k : String) (it : MappingItem), k ≠ "" →
       lastWith b.items k = some it →
       findKey ((base.mergeOver (some a)).mergeOver (some b)).items k = some it ∧
       findKey ((base.mergeOver (some a)).mergeOver (some b)).items k =
         findKey (base.mergeOver (some b)).items k) := by
  refine ⟨fun cfg => rfl, ?_, ?_, ?_⟩
  · intro base ov k it hk hlast
    show findKey (mergeItems base.items ov.items) k = some it
    rw [mergeItems_findKey, lastWith_filter_ne _ _ hk, hlast]
    rfl
  · intro base ov k h
    show findKey (mergeItems base.items ov.items) k = lastWith base.items k
    rw [mergeItems_findKey]
    have hfilt : lastWith (ov.items.filter (fun it => it.canonical_key ≠ "")) k = none := by
      unfold lastWith at h ⊢
      rw [← List.filter_reverse]
      rw [List.find?_eq_none] at h ⊢
      intro y hy
      exact h y (List.mem_of_mem_filter hy)
    rw [hfilt, Option.none_or]
  · intro base a b k it hk hlast
    have h1 : findKey (mergeItems (mergeItems base.items a.items) b.items) k = some it := by
      rw [mergeItems_findKey, lastWith_filter_ne _ _ hk, hlast]
      rfl
    have h2 : findKey (mergeItems base.items b.items) k = some it := by
      rw [mergeItems_findKey, lastWith_filter_ne _ _ hk, hlast]
      rfl
    exact ⟨h1, h1.trans h2.symm⟩

/-- Witness for C6: on concrete configs the overlay's Revenue item fully
replaces the base one. -/
theorem c6_witness :
    ("Revenue" : String) ≠ "" ∧
    lastWith c6Ov.items "Revenue" = some ⟨"Revenue", "PL", some "duration", []⟩ ∧
    findKey (c6Base.mergeOver (some c6Ov)).items "Revenue" =
      some ⟨"Revenue", "PL", some "duration", []⟩ :=
  ⟨by decide, by decide,
   c6_merge_over.2.1 c6Base c6Ov "Revenue" ⟨"Revenue", "PL", some "duration", []⟩
     (by decide) (by decide)⟩

/-! ## Claim C9: empty input -/

theorem filterFacts_nil (pt : Option String) (pf : CanonicalPeriodFilter) (inc : Bool) :
    filterFacts [] pt pf inc = [] := by
  simp [filterFacts, stageDim, stagePt, stagePrefer, stageMin]

theorem scoredRows_nil (r : CanonicalRule) (pf : CanonicalPeriodFilter) (cons : Option Bool) :
    scoredRows [] r pf cons = [] := by
  cases cons <;> simp [scoredRows, filterFacts_nil]

theorem groupKeys_nil : groupKeys [] = [] := rfl

theorem matchRule_nil (r : CanonicalRule) (pf : CanonicalPeriodFilter) (cons : Option Bool) :
    matchRule [] r pf cons = [] := by
  simp [matchRule, scoredRows_nil, groupKeys_nil]

theorem resolveCanonicalLong_nil (rules : List CanonicalRule) (st : StatementType)
    (pf : CanonicalPeriodFilter) (cons : Option Bool) :
    resolveCanonicalLong [] rules st pf cons = [] := by
  simp [resolveCanonicalLong, matchRule_nil]

theorem portScoredRows_nil (rule : PortfolioRule) (pf : CanonicalPeriodFilter)
    (cons : Option Bool) : portScoredRows [] rule pf cons = [] := by
  cases cons <;> simp [portScoredRows, filterFacts_nil]

theorem matchPortfolioRule_nil (rule : PortfolioRule) (pf : CanonicalPeriodFilter)
    (cons : Option Bool) : matchPortfolioRule [] rule pf cons = [] := by
  simp [matchPortfolioRule, portScoredRows_nil, groupKeys_nil]

/-- C9: a completely empty facts table normalizes to the empty table, and
every resolver entry point returns an empty but correctly-shaped output
(empty long table, the empty wide table, empty portfolio table) rather
than failing. -/
theorem c9_empty_input :
    normalizeFacts [] = [] ∧
    (∀ (rules : List CanonicalRule) (st : StatementType) (pf : CanonicalPeriodFilter)
       (cons : Option Bool), resolveCanonicalLong (normalizeFacts []) rules st pf cons = []) ∧
    (∀ (rules : List CanonicalRule) (st : StatementType),
       canonicalWide (normalizeFacts []) rules st = emptyWide) ∧
    (∀ (pfOpt : Option CanonicalPeriodFilter) (cons : Option Bool),
       getPortfolioPositions (normalizeFacts []) pfOpt cons = []) := by
  have hn : normalizeFacts [] = [] := rfl
  refine ⟨rfl, ?_, ?_, ?_⟩
  · intro rules st pf cons
    rw [hn]
    exact resolveCanonicalLong_nil rules st pf cons
  · intro rules st
    rw [hn]
    simp [canonicalWide, resolveCanonicalLong_nil]
  · intro pfOpt cons
    rw [hn]
    simp [getPortfolioPositions, matchPortfolioRule_nil]

/-! ## Claim C10: the falsy-zero weight fallback -/

/-- C10: a candidate dict whose `weight` entry is the number `0` comes out
of `CandidateSpec.from_dict` with weight `1` (the falsy-zero fallback), so
such a candidate contributes `1` — not `0` — to the match score of any
fact it matches; concretely, an element candidate with weight `0` parses
to the same spec with weight `1`. -/
theorem c10_weight_zero_fallback :
    (∀ (d : CandDict) (w : Flt), d.weight = some w → w.isZero →
       candidateSpecFromDict d = ⟨d.field.getD "", d.exact, d.regex, fl 1⟩) ∧
    (∀ (d : CandDict) (w : Flt) (f : NFact), d.weight = some w → w.isZero →
       candidateMatch f (candidateSpecFromDict d) = true →
       candScore [candidateSpecFromDict d] f = fl 1) ∧
    candidateSpecFromDict ⟨some "element", some "NetSalesIFRS", none, some (fl 0)⟩ =
      ⟨"element", some "NetSalesIFRS", none, fl 1⟩ := by
  have hone : ∀ (d : CandDict) (w : Flt), d.weight = some w → w.isZero →
      candidateSpecFromDict d = ⟨d.field.getD "", d.exact, d.regex, fl 1⟩ := by
    intro d w hw hz
    unfold candidateSpecFromDict
    rw [hw]
    simp [if_pos hz]
  refine ⟨hone, ?_, by decide⟩
  intro d w f hw hz hm
  rw [hone d w hw hz] at hm ⊢
  simp [candScore, hm]
  decide

/-- Witness for C10: the concrete weight-0 element candidate dict parses
with weight 1. -/
theorem c10_witness :
    (⟨some "element", some "NetSalesIFRS", none, some (fl 0)⟩ : CandDict).weight =
      some (fl 0) ∧
    (fl 0).isZero ∧
    candidateSpecFromDict ⟨some "element", some "NetSalesIFRS", none, some (fl 0)⟩ =
      ⟨"element", some "NetSalesIFRS", none, fl 1⟩ :=
  ⟨rfl, by decide,
   c10_weight_zero_fallback.1 ⟨some "element", some "NetSalesIFRS", none, some (fl 0)⟩
     (fl 0) rfl (by decide)⟩
